import Mathlib

/-!
Verification of the block-chain engine core of the `nearcore` repository
against its natural-language specification.

The Rust sources under `src/chain/chain/src/chain.rs`,
`src/chain/client/src/sync.rs`, `src/chain/client/src/view_client.rs` and
`src/core/primitives/src/utils.rs` are shallowly embedded below.  Data types
that live in crates outside the provided sources (`near-primitives` block
types, the `near-chain` store and its staged updates, the runtime adapter
trait) are modelled from the specification; every such definition carries a
doc comment starting with `Modelled from the spec:`.

Machine integers are modelled as `Nat`; the one place where `u64` wrap-around
matters (`check_known_store`) uses an explicit `% 2^64` subtraction.  Hashes
are 32-byte digests in the source; the model carries them as `Nat` values
attached to each header.  Rust `HashMap`s are modelled as association lists
whose insert first erases the key, so the entry count agrees with the map
size.  Unbounded `while` loops over `prev_hash` links take an explicit fuel
argument; all claims are stated either for all fuels or at fuels large enough
for the walk at hand.
-/

instance {ε α : Type} [DecidableEq ε] [DecidableEq α] : DecidableEq (Except ε α) :=
  fun a b =>
    match a, b with
    | .ok x, .ok y =>
      if h : x = y then .isTrue (by rw [h]) else .isFalse (fun hh => h (Except.ok.inj hh))
    | .ok _, .error _ => .isFalse (fun hh => Except.noConfusion hh)
    | .error _, .ok _ => .isFalse (fun hh => Except.noConfusion hh)
    | .error e, .error f =>
      if h : e = f then .isTrue (by rw [h]) else .isFalse (fun hh => h (Except.error.inj hh))

/-- Lookup in an association list: first entry with the given key. -/
def alget {α : Type} (k : Nat) : List (Nat × α) → Option α
  | [] => none
  | kv :: rest => if kv.1 == k then some kv.2 else alget k rest

/-- Remove every entry with the given key (`HashMap::remove`). -/
def alerase {α : Type} (k : Nat) : List (Nat × α) → List (Nat × α)
  | [] => []
  | kv :: rest => if kv.1 == k then alerase k rest else kv :: alerase k rest

/-- Insert, replacing any previous entry with the key (`HashMap::insert`). -/
def alinsert {α : Type} (k : Nat) (v : α) (l : List (Nat × α)) : List (Nat × α) :=
  (k, v) :: alerase k l

/-- Rust `map.entry(k).or_insert(vec![]).push(x)`: append `x` to the bucket at `k`. -/
def alpush (k : Nat) (x : Nat) (l : List (Nat × List Nat)) : List (Nat × List Nat) :=
  match alget k l with
  | some xs => alinsert k (xs ++ [x]) l
  | none => alinsert k [x] l

/-- Stable insertion step for sorting by a `Nat` key: the new element goes
before the first element with a key that is not smaller, so earlier list
elements with equal keys stay earlier (Rust `sort_by` is stable). -/
def insertByKey {α : Type} (key : α → Nat) (x : α) : List α → List α
  | [] => [x]
  | y :: ys => if key y < key x then y :: insertByKey key x ys else x :: y :: ys

/-- Stable sort by a `Nat` key (ascending), mirroring Rust's stable `sort_by`. -/
def sortByKey {α : Type} (key : α → Nat) (l : List α) : List α :=
  l.foldr (insertByKey key) []

/-- Wrapping `u64` subtraction `a - b` for `b ≤ 2^64`, as release-mode Rust
computes it. -/
def u64sub (a b : Nat) : Nat :=
  (a + (2 ^ 64 - b)) % 2 ^ 64

/-! ## Data model

`Block`, `BlockHeader` and `Tip` live in `near-primitives` / `near-chain`
`types.rs`, which are not part of the provided sources. -/

/-- Modelled from the spec: Block Header `{prev_hash, height, epoch_hash,
prev_state_root, timestamp_ns, approvals[], validator_proposals[],
total_weight, signature}` (§3).  The content digest (`Hash`) is carried as an
abstract `Nat` attached to the header. -/
structure BlockHeaderInner where
  height : Nat
  epoch_hash : Nat
  prev_hash : Nat
  prev_state_root : Nat
  timestamp : Nat
  approval_sigs : List Nat
  total_weight : Nat
  validator_proposals : List Nat
deriving DecidableEq

/-- Modelled from the spec: a block header is its inner contents plus the
proposer signature; `hashVal` models the 32-byte content digest (§3). -/
structure BlockHeader where
  inner : BlockHeaderInner
  signature : Nat
  hashVal : Nat
deriving DecidableEq

/-- The header's content digest. -/
def BlockHeader.hash (h : BlockHeader) : Nat := h.hashVal

/-- Modelled from the spec: a transaction body referencing a `block_hash`
anchor used by the transaction-history check (§4.C step 5). -/
structure TransactionBody where
  block_hash : Nat
deriving DecidableEq

/-- Modelled from the spec: a signed transaction with its hash. -/
structure SignedTransaction where
  transaction : TransactionBody
  txHash : Nat
deriving DecidableEq

/-- Modelled from the spec: Block = `{header, transactions[]}` (§3). -/
structure Block where
  header : BlockHeader
  transactions : List SignedTransaction
deriving DecidableEq

/-- A block's hash is its header's hash. -/
def Block.hash (b : Block) : Nat := b.header.hash

/-- Modelled from the spec: Tip `{last_block_hash, prev_block_hash, height,
total_weight}` (§3). -/
structure Tip where
  height : Nat
  last_block_hash : Nat
  prev_block_hash : Nat
  total_weight : Nat
deriving DecidableEq

/-- Build a `Tip` from a header (`Tip::from_header`). -/
def Tip.from_header (header : BlockHeader) : Tip :=
  { height := header.inner.height
    last_block_hash := header.hash
    prev_block_hash := header.inner.prev_hash
    total_weight := header.inner.total_weight }

/-- Provenance of a block: none (gossip), produced locally, or sync. -/
inductive Provenance where
  | NONE
  | PRODUCED
  | SYNC
deriving DecidableEq

/-- Modelled from the spec: transaction execution status (§4.H, §7); only
`Unknown` is observable in the claims below. -/
inductive TransactionStatus where
  | Unknown
  | Completed
  | Failed
deriving DecidableEq

/-- Modelled from the spec: per-transaction result stored by hash; `Default`
has status `Unknown` and empty remaining fields. -/
structure TransactionResult where
  status : TransactionStatus
  logs : List String
  receiptIds : List Nat
  result : Option (List Nat)
deriving DecidableEq

/-- The `Default::default()` transaction result with status `Unknown`. -/
def TransactionResult.unknownDefault : TransactionResult :=
  { status := .Unknown, logs := [], receiptIds := [], result := none }

/-- Outcome of one transaction as returned by `apply_transactions`. -/
structure TxOutcome where
  outHash : Nat
  outResult : TransactionResult
deriving DecidableEq

/-- Chain-level error kinds, from `near-chain` `error.rs` (not under the
provided sources); constructors follow the spec's error table (§7). -/
inductive ErrorKind where
  | Orphan
  | Unfit (msg : String)
  | OldBlock
  | InvalidSignature
  | InvalidBlockFutureTime (ts : Nat)
  | InvalidBlockPastTime (prevTs : Nat) (ts : Nat)
  | InvalidBlockWeight
  | InvalidStateRoot
  | InvalidStatePayload (msg : String)
  | DBNotFoundErr (msg : String)
  | IOErr (msg : String)
  | Other (msg : String)
deriving DecidableEq

/-- Modelled from the spec: a rendering of an error kind, standing in for the
Rust `Debug` formatting used by `format!` in `process_block_single`. -/
def errorRepr : ErrorKind → String
  | .Orphan => "Orphan"
  | .Unfit msg => "Unfit " ++ msg
  | .OldBlock => "OldBlock"
  | .InvalidSignature => "InvalidSignature"
  | .InvalidBlockFutureTime _ => "InvalidBlockFutureTime"
  | .InvalidBlockPastTime _ _ => "InvalidBlockPastTime"
  | .InvalidBlockWeight => "InvalidBlockWeight"
  | .InvalidStateRoot => "InvalidStateRoot"
  | .InvalidStatePayload msg => "InvalidStatePayload " ++ msg
  | .DBNotFoundErr msg => "DBNotFoundErr " ++ msg
  | .IOErr msg => "IOErr " ++ msg
  | .Other msg => "Other " ++ msg

/-! ## Constants (from `chain.rs` and `sync.rs`) -/

/-- Maximum number of orphans chain can store (`chain.rs`). -/
def MAX_ORPHAN_SIZE : Nat := 1024

/-- Maximum age of an orphan, in seconds (`chain.rs`). -/
def MAX_ORPHAN_AGE_SECS : Nat := 300

/-- Refuse blocks more than this many seconds in the future (`chain.rs`). -/
def ACCEPTABLE_TIME_DIFFERENCE : Nat := 12 * 10

/-- Maximum number of block header hashes in a locator (`sync.rs`). -/
def MAX_BLOCK_HEADER_HASHES : Nat := 20

/-! ## `get_locator_heights` (`sync.rs`) -/

/-- The loop body of `get_locator_heights`: push `current`, stop at
`MAX_BLOCK_HEADER_HASHES - 1` entries, step back by `2 ^ len`.  The Rust
`while` loop runs at most `MAX_BLOCK_HEADER_HASHES - 1` iterations (its
length break), so it is given that much fuel plus one; `locatorGo_fuel`
below shows the result is fuel-independent from that point on. -/
def locatorGo : Nat → Nat → List Nat → List Nat
  | 0, _, heights => heights
  | fuel + 1, current, heights =>
    if current > 0 then
      let heights' := heights ++ [current]
      if MAX_BLOCK_HEADER_HASHES - 1 ≤ heights'.length then heights'
      else
        locatorGo fuel
          (if 2 ^ heights'.length < current then current - 2 ^ heights'.length else 0)
          heights'
    else heights

/-- Given height, stepping back to 0 in powers-of-2 steps (`sync.rs`
`get_locator_heights`). -/
def get_locator_heights (height : Nat) : List Nat :=
  locatorGo MAX_BLOCK_HEADER_HASHES height [] ++ [0]

/-! ## Orphan pool (`chain.rs`) -/

/-- An orphan: a block with its provenance and arrival time (seconds). -/
structure Orphan where
  block : Block
  provenance : Provenance
  added : Nat
deriving DecidableEq

/-- The orphan pool: primary map `hash → Orphan` plus secondary indexes
`height → [hash]` and `prev_hash → [hash]`, and an eviction counter. -/
structure OrphanBlockPool where
  orphans : List (Nat × Orphan)
  height_idx : List (Nat × List Nat)
  prev_hash_idx : List (Nat × List Nat)
  evicted : Nat
deriving DecidableEq

/-- Rust `OrphanBlockPool::new`. -/
def OrphanBlockPool.new : OrphanBlockPool :=
  { orphans := [], height_idx := [], prev_hash_idx := [], evicted := 0 }

/-- Rust `OrphanBlockPool::len`. -/
def OrphanBlockPool.len (p : OrphanBlockPool) : Nat :=
  p.orphans.length

/-- Rust `OrphanBlockPool::len_evicted`. -/
def OrphanBlockPool.len_evicted (p : OrphanBlockPool) : Nat :=
  p.evicted

/-- Rust `OrphanBlockPool::contains`. -/
def OrphanBlockPool.contains (p : OrphanBlockPool) (hash : Nat) : Bool :=
  (alget hash p.orphans).isSome

/-- The eviction loop inside `OrphanBlockPool::add`: walk the heights in
descending order, dropping each height bucket and its orphans, until the pool
is again below `MAX_ORPHAN_SIZE`; accumulate the removed hashes. -/
def evictLoop : List Nat → List (Nat × Orphan) → List (Nat × List Nat) → List Nat →
    List (Nat × Orphan) × List (Nat × List Nat) × List Nat
  | [], orphs, hidx, removed => (orphs, hidx, removed)
  | h :: rest, orphs, hidx, removed =>
    let st :=
      match alget h hidx with
      | some hashes => (hashes.foldl (fun o hh => alerase hh o) orphs, alerase h hidx,
          removed ++ hashes)
      | none => (orphs, hidx, removed)
    if st.1.length < MAX_ORPHAN_SIZE then st
    else evictLoop rest st.1 st.2.1 st.2.2

/-- Rust `OrphanBlockPool::add`: insert into the primary map and both indexes;
when above `MAX_ORPHAN_SIZE`, first drop orphans older than
`MAX_ORPHAN_AGE_SECS`, then drop whole height buckets from the highest height
downward, finally prune index entries whose hashes were all removed and bump
the eviction counter. -/
def OrphanBlockPool.add (p : OrphanBlockPool) (orphan : Orphan) (now : Nat) :
    OrphanBlockPool :=
  let h := orphan.block.hash
  let p1 : OrphanBlockPool :=
    { p with
      height_idx := alpush orphan.block.header.inner.height h p.height_idx
      prev_hash_idx := alpush orphan.block.header.inner.prev_hash h p.prev_hash_idx
      orphans := alinsert h orphan p.orphans }
  if MAX_ORPHAN_SIZE < p1.orphans.length then
    let old_len := p1.orphans.length
    let kept := p1.orphans.filter (fun kv => now - kv.2.added < MAX_ORPHAN_AGE_SECS)
    let heightsDesc := (sortByKey id (p1.height_idx.map Prod.fst)).reverse
    let st := evictLoop heightsDesc kept p1.height_idx []
    { orphans := st.1
      height_idx := st.2.1.filter (fun e => e.2.any (fun x => !(st.2.2.contains x)))
      prev_hash_idx := p1.prev_hash_idx.filter (fun e => e.2.any (fun x => !(st.2.2.contains x)))
      evicted := p1.evicted + (old_len - st.1.length) }
  else p1

/-- The sequential `filter_map` of `remove_by_prev_hash`: walk the bucket's
hashes, removing each found orphan from the primary map and collecting it. -/
def removeFold : List Nat → List Orphan × List (Nat × Orphan) →
    List Orphan × List (Nat × Orphan)
  | [], acc => acc
  | h :: rest, acc =>
    match alget h acc.2 with
    | some o => removeFold rest (acc.1 ++ [o], alerase h acc.2)
    | none => removeFold rest acc

/-- Rust `OrphanBlockPool::remove_by_prev_hash`: remove the bucket for
`prev_hash`, remove and return the orphans its hashes point to, and retain in
the height index only entries that still hold a hash outside the removed
set. -/
def OrphanBlockPool.remove_by_prev_hash (p : OrphanBlockPool) (prev_hash : Nat) :
    Option (List Orphan) × OrphanBlockPool :=
  match alget prev_hash p.prev_hash_idx with
  | none =>
    let removed : List Nat := []
    (none,
      { p with
        height_idx := p.height_idx.filter (fun e => e.2.any (fun x => !(removed.contains x))) })
  | some hs =>
    let removed := hs
    let res := removeFold hs ([], p.orphans)
    (some res.1,
      { orphans := res.2
        height_idx := p.height_idx.filter (fun e => e.2.any (fun x => !(removed.contains x)))
        prev_hash_idx := alerase prev_hash p.prev_hash_idx
        evicted := p.evicted })

/-! ## Chain store (modelled) -/

/-- Modelled from the spec: the committed chain store (§4.A) with its three
tips, primary columns and a ghost log `epochProposals` recording the
side-effectful `add_validator_proposals` runtime calls (§6).  The store crate
(`near-chain` `store.rs`) is not part of the provided sources; a
`ChainStoreUpdate` is modelled by threading the state through each operation
and committing by returning the new state (discarding it on error). -/
structure Store where
  blocks : List (Nat × Block)
  headers : List (Nat × BlockHeader)
  heightIndex : List (Nat × Nat)
  head : Tip
  headerHead : Tip
  syncHead : Tip
  postStateRoots : List (Nat × Nat)
  receiptsCol : List (Nat × List Nat)
  txResults : List (Nat × TransactionResult)
  postValidatorProposals : List (Nat × List Nat)
  trieChanges : List Nat
  epochProposals : List (Nat × Nat × Nat × List Nat)
deriving DecidableEq

/-- Rust `block_exists`. -/
def Store.block_exists (s : Store) (hash : Nat) : Bool :=
  (alget hash s.blocks).isSome

/-- Rust `get_block_header`, failing with `DBNotFoundErr` when absent. -/
def Store.get_block_header (s : Store) (hash : Nat) : Except ErrorKind BlockHeader :=
  match alget hash s.headers with
  | some h => .ok h
  | none => .error (.DBNotFoundErr "BLOCK HEADER")

/-- Rust `get_previous_header`: the header of `header.prev_hash`. -/
def Store.get_previous_header (s : Store) (header : BlockHeader) :
    Except ErrorKind BlockHeader :=
  s.get_block_header header.inner.prev_hash

/-- Rust `get_post_state_root`. -/
def Store.get_post_state_root (s : Store) (hash : Nat) : Except ErrorKind Nat :=
  match alget hash s.postStateRoots with
  | some r => .ok r
  | none => .error (.DBNotFoundErr "POST STATE ROOT")

/-- Rust `get_receipts`. -/
def Store.get_receipts (s : Store) (hash : Nat) : Except ErrorKind (List Nat) :=
  match alget hash s.receiptsCol with
  | some r => .ok r
  | none => .error (.DBNotFoundErr "RECEIPT")

/-- Rust `get_transaction_result`. -/
def Store.get_transaction_result (s : Store) (hash : Nat) :
    Except ErrorKind TransactionResult :=
  match alget hash s.txResults with
  | some r => .ok r
  | none => .error (.DBNotFoundErr "TRANSACTION RESULT")

/-- Rust `save_block`. -/
def Store.save_block (s : Store) (b : Block) : Store :=
  { s with blocks := alinsert b.hash b s.blocks }

/-- Rust `save_block_header`. -/
def Store.save_block_header (s : Store) (h : BlockHeader) : Store :=
  { s with headers := alinsert h.hash h s.headers }

/-- Rust `save_post_state_root`. -/
def Store.save_post_state_root (s : Store) (hash root : Nat) : Store :=
  { s with postStateRoots := alinsert hash root s.postStateRoots }

/-- Rust `save_receipt`. -/
def Store.save_receipt (s : Store) (hash : Nat) (rs : List Nat) : Store :=
  { s with receiptsCol := alinsert hash rs s.receiptsCol }

/-- Rust `save_transaction_result`. -/
def Store.save_transaction_result (s : Store) (hash : Nat) (r : TransactionResult) :
    Store :=
  { s with txResults := alinsert hash r s.txResults }

/-- Rust `save_post_validator_proposals`. -/
def Store.save_post_validator_proposals (s : Store) (hash : Nat) (ps : List Nat) :
    Store :=
  { s with postValidatorProposals := alinsert hash ps s.postValidatorProposals }

/-- Rust `save_trie_changes`, staging an abstract trie-change token. -/
def Store.save_trie_changes (s : Store) (tc : Nat) : Store :=
  { s with trieChanges := s.trieChanges ++ [tc] }

/-- Rust `save_header_head`. -/
def Store.save_header_head (s : Store) (t : Tip) : Store :=
  { s with headerHead := t }

/-- Rust `save_sync_head`. -/
def Store.save_sync_head (s : Store) (t : Tip) : Store :=
  { s with syncHead := t }

/-- Modelled from the spec: the height-index rewrite performed by
`save_body_head` (§4.A): walk back along `prev_hash` rewriting height→hash
entries until meeting a height whose entry already matches the walked
ancestor; fuelled by the tip height. -/
def rewriteHeightIndexGo (headers : List (Nat × BlockHeader)) :
    Nat → Nat → List (Nat × Nat) → List (Nat × Nat)
  | 0, _, idx => idx
  | fuel + 1, hash, idx =>
    match alget hash headers with
    | none => idx
    | some h =>
      if alget h.inner.height idx == some hash then idx
      else rewriteHeightIndexGo headers fuel h.inner.prev_hash (alinsert h.inner.height hash idx)

/-- Rust `save_body_head`: set HEAD and canonicalize the height index. -/
def Store.save_body_head (s : Store) (t : Tip) : Store :=
  { s with
    head := t
    heightIndex := rewriteHeightIndexGo s.headers (t.height + 1) t.last_block_hash s.heightIndex }

/-! ## Runtime adapter (modelled) -/

/-- Modelled from the spec: the runtime capability set (§6), as a record of
pure functions.  `apply_transactions` returns
`(trie_changes, new_state_root, tx_results, {shard → receipts}, proposals)`. -/
structure RuntimeAdapter where
  get_block_proposer : Nat → Nat → Except String String
  check_validator_signature : Nat → String → Nat → Nat → Bool
  compute_block_weight : BlockHeader → BlockHeader → Except ErrorKind Nat
  add_validator_proposals : Nat → Nat → Nat → List Nat → Except String Unit
  apply_transactions : Nat → Nat → Nat → Nat → Nat → List (List Nat) →
    List SignedTransaction →
    Except String (Nat × Nat × List TxOutcome × List (Nat × List Nat) × List Nat)
  set_state : Nat → Nat → List Nat → Except String Unit

/-- Modelled from the spec: invoking `add_validator_proposals` on the runtime
(§6); its epoch bookkeeping is recorded in the store's ghost log. -/
def runAddValidatorProposals (rt : RuntimeAdapter) (s : Store)
    (prev_hash hash height : Nat) (proposals : List Nat) : Except String Store :=
  match rt.add_validator_proposals prev_hash hash height proposals with
  | .ok () => .ok { s with epochProposals := s.epochProposals ++ [(prev_hash, hash, height, proposals)] }
  | .error e => .error e

/-! ## Chain update (`chain.rs`, `impl ChainUpdate`) -/

/-- Rust `ChainUpdate::get_previous_header`: previous header, with `DBNotFoundErr`
mapped to `Orphan`. -/
def ChainUpdate.get_previous_header (s : Store) (header : BlockHeader) :
    Except ErrorKind BlockHeader :=
  match s.get_previous_header header with
  | .error (.DBNotFoundErr _) => .error .Orphan
  | .error e => .error e
  | .ok h => .ok h

/-- Rust `ChainUpdate::check_header_signature`: look up the proposer for
`(epoch_hash, height)` and verify the header signature. -/
def ChainUpdate.check_header_signature (rt : RuntimeAdapter) (header : BlockHeader) :
    Except ErrorKind Unit :=
  match rt.get_block_proposer header.inner.epoch_hash header.inner.height with
  | .error e => .error (.Other e)
  | .ok validator =>
    if rt.check_validator_signature header.inner.epoch_hash validator header.hash
        header.signature then .ok ()
    else .error .InvalidSignature

/-- Modelled from the spec: `check_tx_history` from `near-primitives`
`transaction.rs` (not under the provided sources): the anchor header must
exist and its height must lie within
`[current_height - transaction_validity_period, current_height]` (§4.C). -/
def check_tx_history (base : Option BlockHeader) (height validity : Nat) : Bool :=
  match base with
  | some h => h.inner.height ≤ height && height ≤ h.inner.height + validity
  | none => false

/-- Rust `ChainUpdate::validate_header`: future-time bound, signature, parent
presence (else `Orphan`), strict time progression, and — unless the block was
produced locally — the runtime-recomputed total weight. -/
def ChainUpdate.validate_header (rt : RuntimeAdapter) (now : Nat) (s : Store)
    (header : BlockHeader) (provenance : Provenance) : Except ErrorKind Unit :=
  if now + ACCEPTABLE_TIME_DIFFERENCE < header.inner.timestamp then
    .error (.InvalidBlockFutureTime header.inner.timestamp)
  else
    match ChainUpdate.check_header_signature rt header with
    | .error e => .error e
    | .ok () =>
      match ChainUpdate.get_previous_header s header with
      | .error e => .error e
      | .ok prev_header =>
        if header.inner.timestamp ≤ prev_header.inner.timestamp then
          .error (.InvalidBlockPastTime prev_header.inner.timestamp header.inner.timestamp)
        else if provenance ≠ Provenance.PRODUCED then
          match rt.compute_block_weight prev_header header with
          | .error e => .error e
          | .ok weight =>
            if weight ≠ header.inner.total_weight then .error .InvalidBlockWeight
            else .ok ()
        else .ok ()

/-- Rust `ChainUpdate::update_header_head`: advance HEADER_HEAD when the header's
total weight is strictly greater. -/
def ChainUpdate.update_header_head (s : Store) (header : BlockHeader) :
    Option Tip × Store :=
  let header_head := s.headerHead
  if header_head.total_weight < header.inner.total_weight then
    let tip := Tip.from_header header
    (some tip, s.save_header_head tip)
  else (none, s)

/-- Rust `ChainUpdate::update_head`: advance HEAD when the block's total weight is
strictly greater. -/
def ChainUpdate.update_head (s : Store) (block : Block) : Option Tip × Store :=
  let head := s.head
  if head.total_weight < block.header.inner.total_weight then
    let tip := Tip.from_header block.header
    (some tip, s.save_body_head tip)
  else (none, s)

/-- Rust `ChainUpdate::update_sync_head`: set SYNC_HEAD unconditionally. -/
def ChainUpdate.update_sync_head (s : Store) (header : BlockHeader) : Store :=
  s.save_sync_head (Tip.from_header header)

/-- Rust `ChainUpdate::check_header_known`: fast-reject a header equal to
HEADER_HEAD or its parent. -/
def ChainUpdate.check_header_known (s : Store) (header : BlockHeader) :
    Except ErrorKind Unit :=
  let header_head := s.headerHead
  if header.hash == header_head.last_block_hash
      || header.hash == header_head.prev_block_hash then
    .error (.Unfit "header already known")
  else .ok ()

/-- Rust `ChainUpdate::check_known_head`: fast-reject a block equal to HEAD or its
parent. -/
def ChainUpdate.check_known_head (s : Store) (header : BlockHeader) :
    Except ErrorKind Unit :=
  let head := s.head
  let bh := header.hash
  if bh == head.last_block_hash || bh == head.prev_block_hash then
    .error (.Unfit "already known in head")
  else .ok ()

/-- Rust `ChainUpdate::check_known_orphans`. -/
def ChainUpdate.check_known_orphans (orphans : OrphanBlockPool) (header : BlockHeader) :
    Except ErrorKind Unit :=
  if orphans.contains header.hash then .error (.Unfit "already known in orphans")
  else .ok ()

/-- Rust `ChainUpdate::check_known_store`: an already-stored block is `OldBlock`
when `height > 50 && height < head.height - 50` (wrapping `u64`
subtraction), otherwise `Unfit "already known in store"`. -/
def ChainUpdate.check_known_store (s : Store) (header : BlockHeader) :
    Except ErrorKind Unit :=
  if s.block_exists header.hash then
    if 50 < header.inner.height && header.inner.height < u64sub s.head.height 50 then
      .error .OldBlock
    else .error (.Unfit "already known in store")
  else .ok ()

/-- Rust `ChainUpdate::check_known`: head, then orphans, then store. -/
def ChainUpdate.check_known (orphans : OrphanBlockPool) (s : Store) (header : BlockHeader) :
    Except ErrorKind Unit :=
  match ChainUpdate.check_known_head s header with
  | .error e => .error e
  | .ok () =>
    match ChainUpdate.check_known_orphans orphans header with
    | .error e => .error e
    | .ok () => ChainUpdate.check_known_store s header

/-- Rust `ChainUpdate::process_block_header`: validate a header received during
header-first propagation without persisting anything. -/
def ChainUpdate.process_block_header (rt : RuntimeAdapter) (now : Nat) (s : Store)
    (header : BlockHeader) : Except ErrorKind Unit :=
  match ChainUpdate.check_header_known s header with
  | .error e => .error e
  | .ok () => ChainUpdate.validate_header rt now s header .NONE

/-- Rust `ChainUpdate::process_header_for_block`: validate the header, stage it and
possibly advance HEADER_HEAD. -/
def ChainUpdate.process_header_for_block (rt : RuntimeAdapter) (now : Nat) (s : Store)
    (header : BlockHeader) (provenance : Provenance) : Except ErrorKind Store :=
  match ChainUpdate.validate_header rt now s header provenance with
  | .error e => .error e
  | .ok () =>
    let s1 := s.save_block_header header
    .ok (ChainUpdate.update_header_head s1 header).2

/-- Rust `ChainUpdate::process_block`: the full block-processing pipeline, staged
against the store state `s`; on success returns the optional new tip and the
staged (to-be-committed) store. -/
def ChainUpdate.process_block (rt : RuntimeAdapter) (now : Nat)
    (orphans : OrphanBlockPool) (tvp : Nat) (s : Store) (block : Block)
    (provenance : Provenance) : Except ErrorKind (Option Tip × Store) :=
  match ChainUpdate.check_known orphans s block.header with
  | .error e => .error e
  | .ok () =>
    let head := s.head
    let is_next := block.header.inner.prev_hash == head.last_block_hash
    match ChainUpdate.check_header_signature rt block.header with
    | .error e => .error e
    | .ok () =>
      match ChainUpdate.get_previous_header s block.header with
      | .error e => .error e
      | .ok prev =>
        let prev_hash := prev.hash
        if !is_next && !(s.block_exists prev_hash) then .error .Orphan
        else
          match ChainUpdate.process_header_for_block rt now s block.header provenance with
          | .error e => .error e
          | .ok s1 =>
            match s1.get_post_state_root prev_hash with
            | .error e => .error e
            | .ok state_root =>
              if block.header.inner.prev_state_root ≠ state_root then
                .error .InvalidStateRoot
              else if block.transactions.any (fun t =>
                  !check_tx_history (s1.get_block_header t.transaction.block_hash).toOption
                    block.header.inner.height tvp) then
                .error (.InvalidStatePayload
                  "Block contains transactions that are either expired or from a different fork")
              else
                match s1.get_receipts prev_hash with
                | .error e => .error e
                | .ok receipts =>
                  match rt.apply_transactions 0 block.header.inner.prev_state_root
                      block.header.inner.height block.header.inner.prev_hash
                      block.header.hash [receipts] block.transactions with
                  | .error e => .error (.Other e)
                  | .ok (trie_changes, state_root', tx_results, new_receipts, validator_proposals) =>
                    let s2 := s1.save_post_state_root block.hash state_root'
                    let s3 := s2.save_post_validator_proposals block.hash validator_proposals
                    match runAddValidatorProposals rt s3 block.header.inner.prev_hash
                        block.hash block.header.inner.height validator_proposals with
                    | .error e => .error (.Other e)
                    | .ok s4 =>
                      let s5 := s4.save_trie_changes trie_changes
                      let s6 := s5.save_receipt block.hash ((alget 0 new_receipts).getD [])
                      let s7 := tx_results.foldl
                        (fun st r => st.save_transaction_result r.outHash r.outResult) s6
                      let s8 := s7.save_block block
                      let res := ChainUpdate.update_head s8 block
                      .ok (res.1, res.2)

/-- The per-header body of `ChainUpdate::sync_block_headers`: validate with
`SYNC` provenance, stage the header, and record its validator proposals. -/
def syncSaveLoop (rt : RuntimeAdapter) (now : Nat) :
    Store → List BlockHeader → Except ErrorKind Store
  | s, [] => .ok s
  | s, header :: rest =>
    match ChainUpdate.validate_header rt now s header .SYNC with
    | .error e => .error e
    | .ok () =>
      let s1 := s.save_block_header header
      match runAddValidatorProposals rt s1 header.inner.prev_hash header.hash
          header.inner.height header.inner.validator_proposals with
      | .error e => .error (.Other e)
      | .ok s2 => syncSaveLoop rt now s2 rest

/-- Rust `ChainUpdate::sync_block_headers`: sort by height; skip the save loop when
the last header is already stored; then update SYNC_HEAD unconditionally and
HEADER_HEAD if the weight increased. -/
def ChainUpdate.sync_block_headers (rt : RuntimeAdapter) (now : Nat) (s : Store)
    (headers : List BlockHeader) : Except ErrorKind (Option Tip × Store) :=
  let sorted := sortByKey (fun h => h.inner.height) headers
  match sorted.head? with
  | none => .ok (none, s)
  | some _ =>
    let all_known :=
      match sorted.getLast? with
      | some last_header => (alget last_header.hash s.headers).isSome
      | none => false
    let loopRes := if !all_known then syncSaveLoop rt now s sorted else .ok s
    match loopRes with
    | .error e => .error e
    | .ok s1 =>
      match sorted.getLast? with
      | some last_header =>
        let s2 := ChainUpdate.update_sync_head s1 last_header
        let res := ChainUpdate.update_header_head s2 last_header
        .ok (res.1, res.2)
      | none => .ok (none, s1)

/-! ## Chain engine (`chain.rs`, `impl Chain`) -/

/-- The mutable state owned by the chain engine: the committed store plus the
private orphan pool. -/
structure ChainState where
  store : Store
  orphans : OrphanBlockPool
deriving DecidableEq

/-- Rust `Chain::process_block_single`: run one block through a fresh
`ChainUpdate`; commit on success; on `Orphan` move the block into the orphan
pool; on `Unfit` surface the error unchanged; otherwise re-wrap the error as
`Other` with its debug rendering.  The state component is the engine state
after the call. -/
def Chain.process_block_single (rt : RuntimeAdapter) (now : Nat) (tvp : Nat)
    (cs : ChainState) (block : Block) (provenance : Provenance) :
    Except ErrorKind (Option Tip) × ChainState :=
  match ChainUpdate.process_block rt now cs.orphans tvp cs.store block provenance with
  | .ok (tip, s') => (.ok tip, { cs with store := s' })
  | .error e =>
    match e with
    | .Orphan =>
      (.error .Orphan,
        { cs with
          orphans := cs.orphans.add { block := block, provenance := provenance, added := now } now })
    | .Unfit msg => (.error (.Unfit msg), cs)
    | _ => (.error (.Other (errorRepr e)), cs)

/-- The inner loop of `Chain::check_orphans`: process one batch of orphans,
pushing each accepted orphan's hash and keeping the latest returned tip (the
tip is overwritten — even by `None` — on every success). -/
def processOrphansBatch (rt : RuntimeAdapter) (now : Nat) (tvp : Nat) :
    List Orphan → ChainState → List Nat → Option Tip →
    ChainState × List Nat × Option Tip
  | [], cs, q, acc => (cs, q, acc)
  | o :: rest, cs, q, acc =>
    let bh := o.block.hash
    let r := Chain.process_block_single rt now tvp cs o.block o.provenance
    match r.1 with
    | .ok mt => processOrphansBatch rt now tvp rest r.2 (q ++ [bh]) mt
    | .error _ => processOrphansBatch rt now tvp rest r.2 q acc

/-- The BFS queue of `Chain::check_orphans`, fuelled: each queue element pulls
its direct orphan descendants out of the pool and re-processes them.  The
Rust loop runs at most `1 + pool size` iterations, so the caller passes that
as fuel. -/
def checkOrphansGo (rt : RuntimeAdapter) (now : Nat) (tvp : Nat) :
    Nat → ChainState → List Nat → Option Tip → Option Tip × ChainState
  | 0, cs, _, acc => (acc, cs)
  | _ + 1, cs, [], acc => (acc, cs)
  | fuel + 1, cs, qh :: qt, acc =>
    match cs.orphans.remove_by_prev_hash qh with
    | (some orphans, pool') =>
      let r := processOrphansBatch rt now tvp orphans { cs with orphans := pool' } [] acc
      checkOrphansGo rt now tvp fuel r.1 (qt ++ r.2.1) r.2.2
    | (none, pool') => checkOrphansGo rt now tvp fuel { cs with orphans := pool' } qt acc

/-- Rust `Chain::check_orphans`: drain the orphan pool by BFS from a freshly
accepted hash. -/
def Chain.check_orphans (rt : RuntimeAdapter) (now : Nat) (tvp : Nat)
    (cs : ChainState) (prev_hash : Nat) : Option Tip × ChainState :=
  checkOrphansGo rt now tvp (cs.orphans.len + 1) cs [prev_hash] none

/-- Rust `Chain::process_block`: process the block, then on success drain any
orphans that depended on it; a tip produced by the drain supersedes the
block's own result. -/
def Chain.process_block (rt : RuntimeAdapter) (now : Nat) (tvp : Nat)
    (cs : ChainState) (block : Block) (provenance : Provenance) :
    Except ErrorKind (Option Tip) × ChainState :=
  let hash := block.hash
  let r := Chain.process_block_single rt now tvp cs block provenance
  match r.1 with
  | .ok _ =>
    let d := Chain.check_orphans rt now tvp r.2 hash
    match d.1 with
    | some tip => (.ok (some tip), d.2)
    | none => (r.1, d.2)
  | .error _ => r

/-- Rust `Chain::sync_block_headers`: run the header-sync update and commit it on
success (the staged store is dropped on error). -/
def Chain.sync_block_headers (rt : RuntimeAdapter) (now : Nat) (cs : ChainState)
    (headers : List BlockHeader) : Except ErrorKind Unit × ChainState :=
  match ChainUpdate.sync_block_headers rt now cs.store headers with
  | .ok (_, s') => (.ok (), { cs with store := s' })
  | .error e => (.error e, cs)

/-- Rust `Chain::reset_sync_head`: reset SYNC_HEAD to the current HEADER_HEAD. -/
def Chain.reset_sync_head (cs : ChainState) : ChainState :=
  { cs with store := cs.store.save_sync_head cs.store.headerHead }

/-- Rust `Chain::set_shard_state`: validate the snapshot against the anchor
header's `prev_state_root` via the runtime, then store the state root and the
inbound receipts under the anchor's parent hash. -/
def Chain.set_shard_state (rt : RuntimeAdapter) (cs : ChainState)
    (shard_id hash : Nat) (payload : List Nat) (receipts : List Nat) :
    Except ErrorKind Unit × ChainState :=
  match cs.store.get_block_header hash with
  | .error e => (.error e, cs)
  | .ok header =>
    match rt.set_state shard_id header.inner.prev_state_root payload with
    | .error e => (.error (.InvalidStatePayload e), cs)
    | .ok () =>
      let s1 := cs.store.save_post_state_root header.inner.prev_hash
        header.inner.prev_state_root
      let s2 := s1.save_receipt header.inner.prev_hash receipts
      (.ok (), { cs with store := s2 })

/-- Rust `Chain::is_on_current_chain`: the height index resolves the header's
height to this very header. -/
def Chain.is_on_current_chain (s : Store) (header : BlockHeader) : Bool :=
  match alget header.inner.height s.heightIndex with
  | none => false
  | some hash =>
    match alget hash s.headers with
    | none => false
    | some chain_header => chain_header.hash == header.hash

/-- The walk of `Chain::check_state_needed`: from HEADER_HEAD back along
`prev_hash`, threading `(oldest_height, hashes)`; stop on a header that is on
the current chain with height at or below HEAD, or when the header chain runs
out (or fuel, standing in for the unbounded Rust loop, is exhausted). -/
def csnLoop (s : Store) : Nat → Option BlockHeader → Nat → List Nat → Nat × List Nat
  | 0, _, oldest, hashes => (oldest, hashes)
  | _ + 1, none, oldest, hashes => (oldest, hashes)
  | fuel + 1, some header, oldest, hashes =>
    if header.inner.height ≤ s.head.height && Chain.is_on_current_chain s header then
      (oldest, hashes)
    else
      csnLoop s fuel (alget header.inner.prev_hash s.headers) header.inner.height
        (hashes ++ [header.hash])

/-- Rust `Chain::check_state_needed`: nothing to do when HEAD's weight already
reaches HEADER_HEAD's; otherwise walk back from HEADER_HEAD, and signal state
sync (discarding the hashes) when the oldest walked height is more than
`block_fetch_horizon` below SYNC_HEAD (saturating). -/
def Chain.check_state_needed (s : Store) (block_fetch_horizon : Nat) (fuel : Nat) :
    Bool × List Nat :=
  if s.headerHead.total_weight ≤ s.head.total_weight then (false, [])
  else
    let r := csnLoop s fuel (alget s.headerHead.last_block_hash s.headers) 0 []
    if r.1 < s.syncHead.height - block_fetch_horizon then (true, [])
    else (false, r.2)

/-! ## View client (`view_client.rs`) -/

/-- Rust `ViewClientActor::get_transaction_result` over the outcome of the chain
lookup: success is forwarded, `DBNotFoundErr` becomes a default result with
status `Unknown`, and any other error is rendered as a string error. -/
def ViewClientActor.get_transaction_result
    (res : Except ErrorKind TransactionResult) : Except String TransactionResult :=
  match res with
  | .ok r => .ok r
  | .error e =>
    match e with
    | .DBNotFoundErr _ => .ok TransactionResult.unknownDefault
    | _ => .error (errorRepr e)

/-- Rust `ViewClientActor::get_transaction_result` applied to the chain store
lookup for a transaction hash. -/
def ViewClientActor.get_transaction_result_of_store (s : Store) (hash : Nat) :
    Except String TransactionResult :=
  ViewClientActor.get_transaction_result (s.get_transaction_result hash)

/-! ## Regular expressions and account IDs (`utils.rs`)

The account-ID check delegates to the `regex` crate; its semantics is
embedded as a standard matching relation `RMatch` together with an executable
Brzozowski-derivative matcher used by `is_valid_account_id`. -/

/-- Regular expressions over characters, with character classes as decidable
predicates. -/
inductive Regex where
  | emp : Regex
  | eps : Regex
  | cls : (Char → Bool) → Regex
  | alt : Regex → Regex → Regex
  | cat : Regex → Regex → Regex
  | star : Regex → Regex

/-- Does the regex accept the empty string? -/
def Regex.nullable : Regex → Bool
  | .emp => false
  | .eps => true
  | .cls _ => false
  | .alt a b => a.nullable || b.nullable
  | .cat a b => a.nullable && b.nullable
  | .star _ => true

/-- Brzozowski derivative of a regex by a character. -/
def Regex.deriv (c : Char) : Regex → Regex
  | .emp => .emp
  | .eps => .emp
  | .cls p => if p c then .eps else .emp
  | .alt a b => .alt (a.deriv c) (b.deriv c)
  | .cat a b =>
    if a.nullable then .alt (.cat (a.deriv c) b) (b.deriv c)
    else .cat (a.deriv c) b
  | .star r => .cat (r.deriv c) (.star r)

/-- Executable matcher by iterated derivatives. -/
def Regex.rmatch (r : Regex) : List Char → Bool
  | [] => r.nullable
  | c :: s => (r.deriv c).rmatch s

/-- The matching relation: `RMatch r s` holds when `s` is in the language of
`r`. -/
inductive RMatch : Regex → List Char → Prop
  | eps : RMatch .eps []
  | cls {p : Char → Bool} {c : Char} : p c = true → RMatch (.cls p) [c]
  | altl {a b : Regex} {s : List Char} : RMatch a s → RMatch (.alt a b) s
  | altr {a b : Regex} {s : List Char} : RMatch b s → RMatch (.alt a b) s
  | cat {a b : Regex} {s t : List Char} :
      RMatch a s → RMatch b t → RMatch (.cat a b) (s ++ t)
  | star_nil {r : Regex} : RMatch (.star r) []
  | star_cat {r : Regex} {c : Char} {s t : List Char} :
      RMatch r (c :: s) → RMatch (.star r) t → RMatch (.star r) (c :: s ++ t)

/-- Rust `r+` as `r · r*`. -/
def Regex.plus (r : Regex) : Regex :=
  .cat r (.star r)

/-- Modelled from the spec: the character class `[a-z\d]` of the account-ID
regex.  The `regex` crate's `\d` is the Unicode-aware decimal-digit class
`\p{Nd}`; the crate's digit table is external data, taken here as the
parameter `nd`, so every statement below holds in particular for the crate's
actual table. -/
def wordChar (nd : Char → Bool) (c : Char) : Bool :=
  ('a' ≤ c && c ≤ 'z') || nd c

/-- The character class `[\-_]`. -/
def sepDash (c : Char) : Bool :=
  c == '-' || c == '_'

/-- The character class `[\.@]`. -/
def sepDot (c : Char) : Bool :=
  c == '.' || c == '@'

/-- One account part: `([a-z\d]+[\-_])*[a-z\d]+`, over the digit table `nd`. -/
def accountPart (nd : Char → Bool) : Regex :=
  .cat (.star (.cat (Regex.plus (.cls (wordChar nd))) (.cls sepDash)))
    (Regex.plus (.cls (wordChar nd)))

/-- The account-ID regex
`^(([a-z\d]+[\-_])*[a-z\d]+[\.@])*([a-z\d]+[\-_])*[a-z\d]+$`
(`VALID_ACCOUNT_ID` in `utils.rs`; the `^`/`$` anchors are implicit in
whole-string matching), over the digit table `nd`. -/
def VALID_ACCOUNT_ID (nd : Char → Bool) : Regex :=
  .cat (.star (.cat (accountPart nd) (.cls sepDot))) (accountPart nd)

/-- Minimum account ID length (`utils.rs`). -/
def MIN_ACCOUNT_ID_LEN : Nat := 2

/-- Maximum account ID length (`utils.rs`). -/
def MAX_ACCOUNT_ID_LEN : Nat := 64

/-- Rust `is_valid_account_id` (`utils.rs`): UTF-8 byte length between 2 and
64 (`String.utf8ByteSize` is the byte count of the UTF-8 encoding, matching
Rust's `str::len`) and a full match of `VALID_ACCOUNT_ID` over the digit
table `nd`. -/
def is_valid_account_id (nd : Char → Bool) (account_id : String) : Bool :=
  decide (MIN_ACCOUNT_ID_LEN ≤ account_id.utf8ByteSize)
    && decide (account_id.utf8ByteSize ≤ MAX_ACCOUNT_ID_LEN)
    && (VALID_ACCOUNT_ID nd).rmatch account_id.data

/-! ## Invariants and reachability -/

/-- Invariant I1 (§3): HEAD's total weight never exceeds HEADER_HEAD's. -/
def I1 (cs : ChainState) : Prop :=
  cs.store.head.total_weight ≤ cs.store.headerHead.total_weight

instance (cs : ChainState) : Decidable (I1 cs) := by
  unfold I1; infer_instance

/-- Height-index coverage of the orphan pool: every held orphan's hash is
listed in the height bucket of its block's height. -/
def HCov (p : OrphanBlockPool) : Prop :=
  ∀ kv ∈ p.orphans,
    ∃ b, alget kv.2.block.header.inner.height p.height_idx = some b ∧ kv.1 ∈ b

instance (p : OrphanBlockPool) : Decidable (HCov p) := by
  unfold HCov; infer_instance

/-- Prev-hash-index coverage of the orphan pool: every held orphan's hash is
listed in the bucket of its block's `prev_hash`. -/
def PCov (p : OrphanBlockPool) : Prop :=
  ∀ kv ∈ p.orphans,
    ∃ b, alget kv.2.block.header.inner.prev_hash p.prev_hash_idx = some b ∧ kv.1 ∈ b

instance (p : OrphanBlockPool) : Decidable (PCov p) := by
  unfold PCov; infer_instance

/-- The state of the orphan pool maintained by `add` / `remove_by_prev_hash`
from `new` that claim C2 needs: the size bound plus height-index coverage. -/
def PoolInvC2 (p : OrphanBlockPool) : Prop :=
  p.orphans.length ≤ MAX_ORPHAN_SIZE ∧ HCov p

instance (p : OrphanBlockPool) : Decidable (PoolInvC2 p) := by
  unfold PoolInvC2; infer_instance

/-- Well-formedness of the orphan pool used for `remove_by_prev_hash`: keys
are unique and equal to the stored block's hash, every orphan is covered by
its prev-hash bucket, and — since equal hashes mean equal blocks — every hash
listed under a prev-hash bucket resolves (if at all) to an orphan with that
`prev_hash`. -/
def PoolInvPrev (p : OrphanBlockPool) : Prop :=
  (p.orphans.map Prod.fst).Nodup ∧
  (∀ kv ∈ p.orphans, kv.2.block.hash = kv.1) ∧
  PCov p ∧
  ∀ pe ∈ p.prev_hash_idx, ∀ k ∈ pe.2, ∀ o, alget k p.orphans = some o →
    o.block.header.inner.prev_hash = pe.1

instance (p : OrphanBlockPool) : Decidable (PoolInvPrev p) := by
  unfold PoolInvPrev PCov; infer_instance

/-- Pool states constructible through the `OrphanBlockPool` interface. -/
inductive ReachablePool : OrphanBlockPool → Prop
  | new : ReachablePool OrphanBlockPool.new
  | add (p : OrphanBlockPool) (o : Orphan) (now : Nat) :
      ReachablePool p → ReachablePool (p.add o now)
  | remove (p : OrphanBlockPool) (h : Nat) :
      ReachablePool p → ReachablePool (p.remove_by_prev_hash h).2

/-- Engine states reachable from a start state by committed chain operations:
`process_block`, `sync_block_headers`, `set_shard_state`, `reset_sync_head`. -/
inductive ChainReachable (rt : RuntimeAdapter) : ChainState → ChainState → Prop
  | refl (s : ChainState) : ChainReachable rt s s
  | process_block (s0 s : ChainState) (now tvp : Nat) (b : Block) (prov : Provenance) :
      ChainReachable rt s0 s →
      ChainReachable rt s0 (Chain.process_block rt now tvp s b prov).2
  | sync_block_headers (s0 s : ChainState) (now : Nat) (headers : List BlockHeader) :
      ChainReachable rt s0 s →
      ChainReachable rt s0 (Chain.sync_block_headers rt now s headers).2
  | set_shard_state (s0 s : ChainState) (shard hash : Nat) (payload receipts : List Nat) :
      ChainReachable rt s0 s →
      ChainReachable rt s0 (Chain.set_shard_state rt s shard hash payload receipts).2
  | reset_sync_head (s0 s : ChainState) :
      ChainReachable rt s0 s → ChainReachable rt s0 (Chain.reset_sync_head s)

/-! ## Declarative restatement of `check_state_needed` (for claim C6) -/

/-- The walk of `check_state_needed`, restated declaratively: the list of
headers visited walking back from HEADER_HEAD, ending (exclusively) at the
first header that is on the current chain with height at or below HEAD. -/
def csnWalkSpec (s : Store) : Nat → Option BlockHeader → List BlockHeader
  | 0, _ => []
  | _ + 1, none => []
  | fuel + 1, some header =>
    if header.inner.height ≤ s.head.height && Chain.is_on_current_chain s header then []
    else header :: csnWalkSpec s fuel (alget header.inner.prev_hash s.headers)

/-- Declarative restatement of `check_state_needed` (the amended claim C6):
collect every walked header; `state_needed` is signalled — with the hash list
discarded — exactly when the oldest walked height (0 when nothing was walked)
is below SYNC_HEAD's height minus the horizon (saturating); otherwise the
walked headers' hashes are returned newest-first. -/
def checkStateNeededSpec (s : Store) (block_fetch_horizon fuel : Nat) :
    Bool × List Nat :=
  if s.headerHead.total_weight ≤ s.head.total_weight then (false, [])
  else
    let walked := csnWalkSpec s fuel (alget s.headerHead.last_block_hash s.headers)
    let oldest := ((walked.getLast?).map (fun h => h.inner.height)).getD 0
    if oldest < s.syncHead.height - block_fetch_horizon then (true, [])
    else (false, walked.map BlockHeader.hash)

/-! ## Concrete fixtures for witnesses and counterexamples -/

/-- A header with the given hash, height and parent; weight and timestamp
equal the height, state root fixed at 7. -/
def mkHeader (hash height prev : Nat) : BlockHeader :=
  { inner :=
      { height := height, epoch_hash := 0, prev_hash := prev, prev_state_root := 7,
        timestamp := height, approval_sigs := [], total_weight := height,
        validator_proposals := [] }
    signature := 0
    hashVal := hash }

/-- A transaction-free block for the given parameters. -/
def mkBlock (hash height prev : Nat) : Block :=
  { header := mkHeader hash height prev, transactions := [] }

/-- A deterministic runtime adapter: proposer `"v"`, all signatures valid,
weight as claimed by the header, applying transactions yields state root 9
and nothing else. -/
def rt0 : RuntimeAdapter :=
  { get_block_proposer := fun _ _ => .ok "v"
    check_validator_signature := fun _ _ _ _ => true
    compute_block_weight := fun _ header => .ok header.inner.total_weight
    add_validator_proposals := fun _ _ _ _ => .ok ()
    apply_transactions := fun _ _ _ _ _ _ _ => .ok (0, 9, [], [], [])
    set_state := fun _ _ _ => .ok () }

/-- Genesis header for the fixtures: hash 100, height 0, weight 0. -/
def gHeader : BlockHeader := mkHeader 100 0 0

/-- Genesis block. -/
def gBlock : Block := mkBlock 100 0 0

/-- Genesis tip. -/
def gTip : Tip := Tip.from_header gHeader

/-- A freshly initialized store holding only genesis. -/
def store0 : Store :=
  { blocks := [(100, gBlock)]
    headers := [(100, gHeader)]
    heightIndex := [(0, 100)]
    head := gTip
    headerHead := gTip
    syncHead := gTip
    postStateRoots := [(100, 7)]
    receiptsCol := [(100, [])]
    txResults := []
    postValidatorProposals := [(100, [])]
    trieChanges := []
    epochProposals := [] }

/-- Engine state at genesis. -/
def cs0 : ChainState := { store := store0, orphans := OrphanBlockPool.new }

/-- A valid child of genesis: hash 101, height 1, weight 1. -/
def b1 : Block := mkBlock 101 1 100

/-- The engine state after successfully processing `b1` at time 10. -/
def cs1 : ChainState := (Chain.process_block rt0 10 100 cs0 b1 .NONE).2

/-- An orphan fixture over `b1`. -/
def orph1 : Orphan := { block := b1, provenance := .NONE, added := 0 }

/-- Store whose HEAD is at height 200 while an unrelated block of height 30
(hash 130) is also stored — a duplicate far below HEAD. -/
def store7 : Store :=
  { store0 with
    blocks := [(130, mkBlock 130 30 129), (100, gBlock)]
    headers := [(130, mkHeader 130 30 129), (100, gHeader)]
    head := { height := 200, last_block_hash := 500, prev_block_hash := 499,
              total_weight := 200 } }

/-- Engine state for the C7 counterexample. -/
def cs7 : ChainState := { store := store7, orphans := OrphanBlockPool.new }

/-- The far-below-HEAD stored block of `store7`. -/
def b30 : Block := mkBlock 130 30 129

/-- Store where header 101 is already stored and SYNC_HEAD still points at
genesis — fixture for the C5 counterexample. -/
def store5 : Store :=
  { store0 with
    headers := [(101, mkHeader 101 1 100), (100, gHeader)]
    headerHead := Tip.from_header (mkHeader 101 1 100) }

/-- Engine state for the C5 counterexample. -/
def cs5 : ChainState := { store := store5, orphans := OrphanBlockPool.new }

/-- Store for the C6 counterexample: canonical chain genesis→101 with HEAD at
101; header chain continues 102 (whose block IS stored) and 103; HEADER_HEAD
and SYNC_HEAD at 103. -/
def store6 : Store :=
  { blocks := [(100, gBlock), (101, mkBlock 101 1 100), (102, mkBlock 102 2 101)]
    headers := [(100, gHeader), (101, mkHeader 101 1 100), (102, mkHeader 102 2 101),
      (103, mkHeader 103 3 102)]
    heightIndex := [(0, 100), (1, 101)]
    head := Tip.from_header (mkHeader 101 1 100)
    headerHead := Tip.from_header (mkHeader 103 3 102)
    syncHead := Tip.from_header (mkHeader 103 3 102)
    postStateRoots := [(100, 7), (101, 7), (102, 7)]
    receiptsCol := [(100, []), (101, []), (102, [])]
    txResults := []
    postValidatorProposals := []
    trieChanges := []
    epochProposals := [] }

/-- Orphan A of the C8 fixtures: hash 1, height 5, parent 10. -/
def orphA : Orphan := { block := mkBlock 1 5 10, provenance := .NONE, added := 0 }

/-- Orphan B of the C8 fixtures: hash 2, height 5, parent 11. -/
def orphB : Orphan := { block := mkBlock 2 5 11, provenance := .NONE, added := 0 }

/-- Pool holding two orphans at the same height with different parents. -/
def poolA : OrphanBlockPool :=
  { orphans := [(1, orphA), (2, orphB)]
    height_idx := [(5, [1, 2])]
    prev_hash_idx := [(10, [1]), (11, [2])]
    evicted := 0 }

/-! ## Association-list lemmas -/

theorem alget_mem {α : Type} {k : Nat} {v : α} :
    ∀ {l : List (Nat × α)}, alget k l = some v → (k, v) ∈ l
  | [], h => by simp [alget] at h
  | kv :: rest, h => by
    by_cases hk : kv.1 = k
    · simp only [alget, hk, beq_self_eq_true, if_true, Option.some.injEq] at h
      cases kv
      simp_all
    · simp only [alget, beq_iff_eq, hk, if_false] at h
      exact List.mem_cons_of_mem _ (alget_mem h)

theorem alget_eq_none_iff {α : Type} {k : Nat} :
    ∀ {l : List (Nat × α)}, alget k l = none ↔ ∀ kv ∈ l, kv.1 ≠ k
  | [] => by simp [alget]
  | kv :: rest => by
    by_cases hk : kv.1 = k
    · simp [alget, hk]
    · simp [alget, hk, alget_eq_none_iff (l := rest)]

theorem mem_of_mem_alerase {α : Type} {k : Nat} {kv : Nat × α} :
    ∀ {l : List (Nat × α)}, kv ∈ alerase k l → kv ∈ l ∧ kv.1 ≠ k
  | [], h => by simp [alerase] at h
  | hd :: rest, h => by
    by_cases hk : hd.1 = k
    · rw [alerase, if_pos (beq_iff_eq.mpr hk)] at h
      have ih := mem_of_mem_alerase h
      exact ⟨List.mem_cons_of_mem _ ih.1, ih.2⟩
    · rw [alerase, if_neg (by simpa using hk)] at h
      rcases List.mem_cons.mp h with h | h
      · subst h; exact ⟨List.mem_cons_self _ _, hk⟩
      · have ih := mem_of_mem_alerase h
        exact ⟨List.mem_cons_of_mem _ ih.1, ih.2⟩

theorem alget_alerase_self {α : Type} {k : Nat} {l : List (Nat × α)} :
    alget k (alerase k l) = none := by
  rw [alget_eq_none_iff]
  intro kv hkv
  exact (mem_of_mem_alerase hkv).2

theorem alget_alerase_ne {α : Type} {k k' : Nat} (h : k' ≠ k) :
    ∀ {l : List (Nat × α)}, alget k' (alerase k l) = alget k' l
  | [] => rfl
  | kv :: rest => by
    by_cases hk : kv.1 = k
    · have hne : kv.1 ≠ k' := by omega
      rw [alerase, if_pos (beq_iff_eq.mpr hk), alget_alerase_ne h,
        alget, if_neg (by simpa using hne)]
    · rw [alerase, if_neg (by simpa using hk)]
      by_cases hk' : kv.1 = k'
      · rw [alget, if_pos (by simpa using hk'), alget, if_pos (by simpa using hk')]
      · rw [alget, if_neg (by simpa using hk'), alget, if_neg (by simpa using hk')]
        exact alget_alerase_ne h

theorem alget_alinsert_self {α : Type} {k : Nat} {v : α} {l : List (Nat × α)} :
    alget k (alinsert k v l) = some v := by
  simp [alinsert, alget]

theorem alget_alinsert_ne {α : Type} {k k' : Nat} {v : α} {l : List (Nat × α)}
    (h : k' ≠ k) : alget k' (alinsert k v l) = alget k' l := by
  rw [alinsert, alget, if_neg (by simpa using fun hh => h hh.symm)]
  exact alget_alerase_ne h

theorem length_alerase_le {α : Type} {k : Nat} :
    ∀ {l : List (Nat × α)}, (alerase k l).length ≤ l.length
  | [] => Nat.le_refl _
  | kv :: rest => by
    by_cases hk : kv.1 = k
    · rw [alerase, if_pos (beq_iff_eq.mpr hk)]
      exact Nat.le_succ_of_le (length_alerase_le (l := rest))
    · rw [alerase, if_neg (by simpa using hk)]
      exact Nat.succ_le_succ (length_alerase_le (l := rest))

theorem length_alinsert_le {α : Type} {k : Nat} {v : α} {l : List (Nat × α)} :
    (alinsert k v l).length ≤ l.length + 1 := by
  simpa [alinsert] using Nat.succ_le_succ (length_alerase_le (k := k) (l := l))

theorem alget_filter {α : Type} {k : Nat} {v : α} {p : Nat × α → Bool} :
    ∀ {l : List (Nat × α)}, alget k l = some v → p (k, v) = true →
      alget k (l.filter p) = some v
  | [], h, _ => by simp [alget] at h
  | kv :: rest, h, hp => by
    by_cases hk : kv.1 = k
    · simp only [alget, hk, beq_self_eq_true, if_true, Option.some.injEq] at h
      have hkv : kv = (k, v) := by cases kv; simp_all
      subst hkv
      simp [List.filter_cons, hp, alget]
    · simp only [alget, beq_iff_eq, hk, if_false] at h
      by_cases hpkv : p kv = true
      · simp only [List.filter_cons, hpkv, if_true, alget, beq_iff_eq, hk, if_false]
        exact alget_filter h hp
      · simp only [List.filter_cons, hpkv, if_false]
        exact alget_filter h hp

theorem alget_some_key_mem {α : Type} {k : Nat} {v : α} {l : List (Nat × α)}
    (h : alget k l = some v) : k ∈ l.map Prod.fst :=
  List.mem_map.mpr ⟨(k, v), alget_mem h, rfl⟩

theorem mem_insertByKey {α : Type} {key : α → Nat} {x y : α} :
    ∀ {l : List α}, y ∈ insertByKey key x l ↔ y = x ∨ y ∈ l
  | [] => by simp [insertByKey]
  | z :: zs => by
    by_cases h : key z < key x
    · rw [insertByKey, if_pos h]
      simp only [List.mem_cons, mem_insertByKey (l := zs) (x := x)]
      tauto
    · rw [insertByKey, if_neg h]
      simp [List.mem_cons]

theorem mem_sortByKey {α : Type} {key : α → Nat} {x : α} :
    ∀ {l : List α}, x ∈ sortByKey key l ↔ x ∈ l
  | [] => by simp [sortByKey]
  | z :: zs => by
    simp only [sortByKey, List.foldr_cons, mem_insertByKey, List.mem_cons]
    rw [show zs.foldr (insertByKey key) [] = sortByKey key zs from rfl,
      mem_sortByKey (l := zs)]

theorem mem_foldl_alerase {α : Type} :
    ∀ (hs : List Nat) (orphs : List (Nat × α)) (kv : Nat × α),
      kv ∈ hs.foldl (fun o hh => alerase hh o) orphs → kv ∈ orphs ∧ kv.1 ∉ hs
  | [], orphs, kv, h => by simpa using h
  | h :: rest, orphs, kv, hmem => by
    have ih := mem_foldl_alerase rest (alerase h orphs) kv (by simpa using hmem)
    have h1 := mem_of_mem_alerase ih.1
    exact ⟨h1.1, by simp [h1.2, ih.2]⟩

/-! ## Locator lemmas and claim C4 -/

theorem locatorGo_fuel :
    ∀ (f1 f2 current : Nat) (heights : List Nat),
      MAX_BLOCK_HEADER_HASHES - 1 - heights.length < f1 →
      MAX_BLOCK_HEADER_HASHES - 1 - heights.length < f2 →
      locatorGo f1 current heights = locatorGo f2 current heights
  | 0, _, _, heights, h1, _ => by
    simp [MAX_BLOCK_HEADER_HASHES] at h1
  | _ + 1, 0, _, heights, _, h2 => by
    simp [MAX_BLOCK_HEADER_HASHES] at h2
  | f1 + 1, f2 + 1, current, heights, h1, h2 => by
    by_cases hc : current > 0
    · rw [locatorGo, locatorGo, if_pos hc, if_pos hc]
      by_cases hl : MAX_BLOCK_HEADER_HASHES - 1 ≤ (heights ++ [current]).length
      · rw [if_pos hl, if_pos hl]
      · rw [if_neg hl, if_neg hl]
        apply locatorGo_fuel
        · simp only [MAX_BLOCK_HEADER_HASHES, List.length_append, List.length_cons,
            List.length_nil] at *
          omega
        · simp only [MAX_BLOCK_HEADER_HASHES, List.length_append, List.length_cons,
            List.length_nil] at *
          omega
    · rw [locatorGo, locatorGo, if_neg hc, if_neg hc]

theorem locatorGo_length :
    ∀ (fuel current : Nat) (heights : List Nat),
      heights.length < MAX_BLOCK_HEADER_HASHES - 1 →
      (locatorGo fuel current heights).length ≤ MAX_BLOCK_HEADER_HASHES - 1
  | 0, _, heights, hl => by simp only [locatorGo]; omega
  | fuel + 1, current, heights, hl => by
    by_cases hc : current > 0
    · rw [locatorGo, if_pos hc]
      by_cases hb : MAX_BLOCK_HEADER_HASHES - 1 ≤ (heights ++ [current]).length
      · rw [if_pos hb]
        simp only [MAX_BLOCK_HEADER_HASHES, List.length_append, List.length_cons,
          List.length_nil] at *
        omega
      · rw [if_neg hb]
        apply locatorGo_length
        simp only [MAX_BLOCK_HEADER_HASHES, List.length_append, List.length_cons,
          List.length_nil] at *
        omega
    · rw [locatorGo, if_neg hc]; omega

theorem locatorGo_chain :
    ∀ (fuel current : Nat) (heights : List Nat),
      List.Pairwise (fun a b => b < a) heights →
      (∀ x ∈ heights, current < x) →
      (∀ x ∈ heights, 0 < x) →
      List.Pairwise (fun a b => b < a) (locatorGo fuel current heights) ∧
        ∀ x ∈ locatorGo fuel current heights, 0 < x
  | 0, _, heights, hp, _, hpos => by
    exact ⟨hp, hpos⟩
  | fuel + 1, current, heights, hp, hgt, hpos => by
    by_cases hc : current > 0
    · rw [locatorGo, if_pos hc]
      have hp' : List.Pairwise (fun a b => b < a) (heights ++ [current]) := by
        rw [List.pairwise_append]
        exact ⟨hp, List.pairwise_singleton _ _, fun a ha b hb => by
          simp only [List.mem_singleton] at hb
          subst hb
          exact hgt a ha⟩
      have hpos' : ∀ x ∈ heights ++ [current], 0 < x := by
        intro x hx
        rcases List.mem_append.mp hx with hx | hx
        · exact hpos x hx
        · simp only [List.mem_singleton] at hx; omega
      by_cases hb : MAX_BLOCK_HEADER_HASHES - 1 ≤ (heights ++ [current]).length
      · rw [if_pos hb]
        exact ⟨hp', hpos'⟩
      · rw [if_neg hb]
        apply locatorGo_chain
        · exact hp'
        · intro x hx
          have hxpos : 0 < x := hpos' x hx
          have hxgt : current ≤ x := by
            rcases List.mem_append.mp hx with hx | hx
            · exact Nat.le_of_lt (hgt x hx)
            · simp only [List.mem_singleton] at hx; omega
          have hpow : 0 < 2 ^ (heights ++ [current]).length := Nat.pos_pow_of_pos _ (by omega)
          by_cases hstep : 2 ^ (heights ++ [current]).length < current
          · rw [if_pos hstep]; omega
          · rw [if_neg hstep]; omega
        · exact hpos'
    · rw [locatorGo, if_neg hc]
      exact ⟨hp, hpos⟩

/-- C4: `get_locator_heights` returns exactly the listed values on
0, 1, 3, 10, 100 and 1000, and for every height the result is strictly
decreasing, has at most 20 entries, and ends with 0. -/
theorem c4_get_locator_heights :
    get_locator_heights 0 = [0] ∧
    get_locator_heights 1 = [1, 0] ∧
    get_locator_heights 3 = [3, 1, 0] ∧
    get_locator_heights 10 = [10, 8, 4, 0] ∧
    get_locator_heights 100 = [100, 98, 94, 86, 70, 38, 0] ∧
    get_locator_heights 1000 = [1000, 998, 994, 986, 970, 938, 874, 746, 490, 0] ∧
    ∀ H : Nat,
      List.Pairwise (fun a b => b < a) (get_locator_heights H) ∧
        (get_locator_heights H).length ≤ 20 ∧
        (get_locator_heights H).getLast? = some 0 := by
  refine ⟨by decide, by decide, by decide, by decide, by decide, by decide, ?_⟩
  intro H
  have hchain := locatorGo_chain MAX_BLOCK_HEADER_HASHES H [] (by simp) (by simp) (by simp)
  have hlen := locatorGo_length MAX_BLOCK_HEADER_HASHES H []
    (by simp [MAX_BLOCK_HEADER_HASHES])
  refine ⟨?_, ?_, ?_⟩
  · rw [get_locator_heights, List.pairwise_append]
    exact ⟨hchain.1, List.pairwise_singleton _ _, fun a ha b hb => by
      simp only [List.mem_singleton] at hb
      subst hb
      exact hchain.2 a ha⟩
  · rw [get_locator_heights]
    simp only [List.length_append, List.length_cons, List.length_nil]
    simp only [MAX_BLOCK_HEADER_HASHES] at hlen ⊢
    omega
  · rw [get_locator_heights]
    exact List.getLast?_concat _

/-! ## Orphan-pool lemmas and claim C2 -/

theorem alget_alpush_ne {k k' x : Nat} {l : List (Nat × List Nat)} (h : k' ≠ k) :
    alget k' (alpush k x l) = alget k' l := by
  rw [alpush]
  cases hget : alget k l with
  | some xs => exact alget_alinsert_ne h
  | none => exact alget_alinsert_ne h

theorem alpush_spec (k x : Nat) (l : List (Nat × List Nat)) :
    ∃ b, alget k (alpush k x l) = some b ∧ x ∈ b ∧
      ∀ y b0, alget k l = some b0 → y ∈ b0 → y ∈ b := by
  rw [alpush]
  cases hget : alget k l with
  | some xs =>
    refine ⟨xs ++ [x], alget_alinsert_self, by simp, ?_⟩
    intro y b0 hb0 hy
    obtain rfl : xs = b0 := by injection hb0
    simp [hy]
  | none => exact ⟨[x], alget_alinsert_self, by simp, fun y b0 hb0 => by simp_all⟩

theorem removeFold_mem2 :
    ∀ (hs : List Nat) (acc : List Orphan × List (Nat × Orphan)) (kv : Nat × Orphan),
      kv ∈ (removeFold hs acc).2 → kv ∈ acc.2 ∧ kv.1 ∉ hs
  | [], acc, kv, h => ⟨h, List.not_mem_nil _⟩
  | h :: rest, acc, kv, hmem => by
    rw [removeFold] at hmem
    cases hget : alget h acc.2 with
    | some o =>
      rw [hget] at hmem
      have ih := removeFold_mem2 rest _ kv hmem
      have h1 := mem_of_mem_alerase ih.1
      exact ⟨h1.1, by simp [h1.2, ih.2]⟩
    | none =>
      rw [hget] at hmem
      have ih := removeFold_mem2 rest _ kv hmem
      have hne : kv.1 ≠ h := by
        intro hh
        exact absurd (alget_eq_none_iff.mp hget kv ih.1) (by simp [hh])
      exact ⟨ih.1, by simp [hne, ih.2]⟩

theorem removeFold_length2 :
    ∀ (hs : List Nat) (acc : List Orphan × List (Nat × Orphan)),
      (removeFold hs acc).2.length ≤ acc.2.length
  | [], _ => Nat.le_refl _
  | h :: rest, acc => by
    rw [removeFold]
    cases hget : alget h acc.2 with
    | some o =>
      calc (removeFold rest (acc.1 ++ [o], alerase h acc.2)).2.length
          ≤ (alerase h acc.2).length := removeFold_length2 rest _
        _ ≤ acc.2.length := length_alerase_le
    | none => exact removeFold_length2 rest acc

theorem evictLoop_spec :
    ∀ (hs : List Nat) (orphs : List (Nat × Orphan)) (hidx : List (Nat × List Nat))
      (removed : List Nat),
      (∀ kv ∈ orphs, kv.1 ∉ removed ∧
        ∃ b, alget kv.2.block.header.inner.height hidx = some b ∧ kv.1 ∈ b ∧
          kv.2.block.header.inner.height ∈ hs) →
      ((evictLoop hs orphs hidx removed).1.length < MAX_ORPHAN_SIZE ∨
        (evictLoop hs orphs hidx removed).1 = []) ∧
      ∀ kv ∈ (evictLoop hs orphs hidx removed).1,
        kv.1 ∉ (evictLoop hs orphs hidx removed).2.2 ∧
        ∃ b, alget kv.2.block.header.inner.height (evictLoop hs orphs hidx removed).2.1 = some b ∧
          kv.1 ∈ b
  | [], orphs, hidx, removed, hpre => by
    have horphs : orphs = [] := by
      rw [List.eq_nil_iff_forall_not_mem]
      intro kv hkv
      obtain ⟨-, b, -, -, hmem⟩ := hpre kv hkv
      exact absurd hmem (List.not_mem_nil _)
    subst horphs
    exact ⟨Or.inr rfl, by simp [evictLoop]⟩
  | h :: rest, orphs, hidx, removed, hpre => by
    rw [evictLoop]
    cases hbuck : alget h hidx with
    | some hashes =>
      simp only
      have hpre' : ∀ kv ∈ hashes.foldl (fun o hh => alerase hh o) orphs,
          kv.1 ∉ removed ++ hashes ∧
          ∃ b, alget kv.2.block.header.inner.height (alerase h hidx) = some b ∧ kv.1 ∈ b ∧
            kv.2.block.header.inner.height ∈ rest := by
        intro kv hkv
        have hm := mem_foldl_alerase hashes orphs kv hkv
        obtain ⟨hnr, b, hb, hkb, hhs⟩ := hpre kv hm.1
        have hne : kv.2.block.header.inner.height ≠ h := by
          intro hh
          rw [hh, hbuck] at hb
          cases hb
          exact hm.2 hkb
        refine ⟨by simp [hnr, hm.2], b, ?_, hkb, ?_⟩
        · rw [alget_alerase_ne hne, hb]
        · cases List.mem_cons.mp hhs with
          | inl hh => exact absurd hh hne
          | inr hh => exact hh
      by_cases hlen :
          (hashes.foldl (fun o hh => alerase hh o) orphs).length < MAX_ORPHAN_SIZE
      · rw [if_pos hlen]
        refine ⟨Or.inl hlen, ?_⟩
        intro kv hkv
        obtain ⟨hnr, b, hb, hkb, -⟩ := hpre' kv hkv
        exact ⟨hnr, b, hb, hkb⟩
      · rw [if_neg hlen]
        exact evictLoop_spec rest _ _ _ hpre'
    | none =>
      simp only
      have hpre' : ∀ kv ∈ orphs, kv.1 ∉ removed ∧
          ∃ b, alget kv.2.block.header.inner.height hidx = some b ∧ kv.1 ∈ b ∧
            kv.2.block.header.inner.height ∈ rest := by
        intro kv hkv
        obtain ⟨hnr, b, hb, hkb, hhs⟩ := hpre kv hkv
        have hne : kv.2.block.header.inner.height ≠ h := by
          intro hh
          rw [hh, hbuck] at hb
          cases hb
        refine ⟨hnr, b, hb, hkb, ?_⟩
        cases List.mem_cons.mp hhs with
        | inl hh => exact absurd hh hne
        | inr hh => exact hh
      by_cases hlen : orphs.length < MAX_ORPHAN_SIZE
      · rw [if_pos hlen]
        refine ⟨Or.inl hlen, ?_⟩
        intro kv hkv
        obtain ⟨hnr, b, hb, hkb, -⟩ := hpre' kv hkv
        exact ⟨hnr, b, hb, hkb⟩
      · rw [if_neg hlen]
        exact evictLoop_spec rest _ _ _ hpre'

theorem add_preserves_PoolInvC2 (p : OrphanBlockPool) (o : Orphan) (now : Nat)
    (hp : PoolInvC2 p) : PoolInvC2 (p.add o now) := by
  obtain ⟨hlen, hcov⟩ := hp
  have hcov1 : HCov
      { p with
        height_idx := alpush o.block.header.inner.height o.block.hash p.height_idx
        prev_hash_idx := alpush o.block.header.inner.prev_hash o.block.hash p.prev_hash_idx
        orphans := alinsert o.block.hash o p.orphans } := by
    intro kv hkv
    simp only [alinsert] at hkv
    rcases List.mem_cons.mp hkv with hkv | hkv
    · subst hkv
      obtain ⟨b, hb, hxb, -⟩ :=
        alpush_spec o.block.header.inner.height o.block.hash p.height_idx
      exact ⟨b, hb, hxb⟩
    · have hm := mem_of_mem_alerase hkv
      obtain ⟨b0, hb0, hkb0⟩ := hcov kv hm.1
      by_cases hht : kv.2.block.header.inner.height = o.block.header.inner.height
      · obtain ⟨b, hb, -, hmono⟩ :=
          alpush_spec o.block.header.inner.height o.block.hash p.height_idx
        rw [hht] at hb0 ⊢
        exact ⟨b, hb, hmono kv.1 b0 hb0 hkb0⟩
      · exact ⟨b0, by rw [alget_alpush_ne hht, hb0], hkb0⟩
  unfold OrphanBlockPool.add
  simp only
  split
  · next hgt =>
    have hpre : ∀ kv ∈ (alinsert o.block.hash o p.orphans).filter
        (fun kv => now - kv.2.added < MAX_ORPHAN_AGE_SECS),
        kv.1 ∉ ([] : List Nat) ∧
        ∃ b, alget kv.2.block.header.inner.height
            (alpush o.block.header.inner.height o.block.hash p.height_idx) = some b ∧
          kv.1 ∈ b ∧
          kv.2.block.header.inner.height ∈
            (sortByKey id ((alpush o.block.header.inner.height o.block.hash
              p.height_idx).map Prod.fst)).reverse := by
      intro kv hkv
      have hm := (List.mem_filter.mp hkv).1
      obtain ⟨b, hb, hkb⟩ := hcov1 kv hm
      refine ⟨List.not_mem_nil _, b, hb, hkb, ?_⟩
      rw [List.mem_reverse, mem_sortByKey]
      exact alget_some_key_mem hb
    have hspec := evictLoop_spec _ _ _ _ hpre
    constructor
    · rcases hspec.1 with hlt | hnil
      · exact Nat.le_of_lt hlt
      · simp [OrphanBlockPool.len, hnil]
    · intro kv hkv
      obtain ⟨hnr, b, hb, hkb⟩ := hspec.2 kv hkv
      refine ⟨b, ?_, hkb⟩
      apply alget_filter hb
      simp only [List.any_eq_true]
      exact ⟨kv.1, hkb, by simp [hnr]⟩
  · next hle =>
    refine ⟨?_, hcov1⟩
    dsimp only at hle ⊢
    omega

theorem remove_preserves_PoolInvC2 (p : OrphanBlockPool) (h : Nat)
    (hp : PoolInvC2 p) : PoolInvC2 (p.remove_by_prev_hash h).2 := by
  obtain ⟨hlen, hcov⟩ := hp
  unfold OrphanBlockPool.remove_by_prev_hash
  cases hget : alget h p.prev_hash_idx with
  | none =>
    simp only
    refine ⟨hlen, ?_⟩
    intro kv hkv
    obtain ⟨b, hb, hkb⟩ := hcov kv hkv
    refine ⟨b, ?_, hkb⟩
    apply alget_filter hb
    simp only [List.any_eq_true]
    exact ⟨kv.1, hkb, by simp⟩
  | some hs =>
    simp only
    constructor
    · calc (removeFold hs ([], p.orphans)).2.length
          ≤ p.orphans.length := removeFold_length2 _ _
        _ ≤ MAX_ORPHAN_SIZE := hlen
    · intro kv hkv
      have hm := removeFold_mem2 hs ([], p.orphans) kv hkv
      obtain ⟨b, hb, hkb⟩ := hcov kv hm.1
      refine ⟨b, ?_, hkb⟩
      apply alget_filter hb
      simp only [List.any_eq_true]
      exact ⟨kv.1, hkb, by simp [hm.2]⟩

theorem reachablePool_inv (p : OrphanBlockPool) (hp : ReachablePool p) : PoolInvC2 p := by
  induction hp with
  | new =>
    refine ⟨by simp [OrphanBlockPool.new, MAX_ORPHAN_SIZE], ?_⟩
    intro kv hkv
    simp [OrphanBlockPool.new] at hkv
  | add p o now _ ih => exact add_preserves_PoolInvC2 p o now ih
  | remove p h _ ih => exact remove_preserves_PoolInvC2 p h ih

/-- C2: starting from any pool state constructible through the orphan-pool
interface, every sequence of `add` calls leaves at most `MAX_ORPHAN_SIZE`
(1024) orphans in the pool after every call. -/
theorem c2_orphan_pool_bound (p : OrphanBlockPool) (hp : ReachablePool p)
    (adds : List (Orphan × Nat)) :
    (adds.foldl (fun q a => q.add a.1 a.2) p).orphans.length ≤ MAX_ORPHAN_SIZE := by
  induction adds generalizing p with
  | nil => exact (reachablePool_inv p hp).1
  | cons a rest ih => exact ih (p.add a.1 a.2) (ReachablePool.add p a.1 a.2 hp)

/-- Witness for C2 at a concrete pool and add sequence. -/
theorem c2_orphan_pool_bound_witness :
    ([(orph1, (5 : Nat))].foldl (fun q a => q.add a.1 a.2)
      OrphanBlockPool.new).orphans.length ≤ MAX_ORPHAN_SIZE :=
  c2_orphan_pool_bound OrphanBlockPool.new ReachablePool.new [(orph1, 5)]

/-! ## `remove_by_prev_hash` lemmas and claim C8 -/

theorem alget_of_mem_nodup {α : Type} :
    ∀ {l : List (Nat × α)}, (l.map Prod.fst).Nodup → ∀ {kv : Nat × α}, kv ∈ l →
      alget kv.1 l = some kv.2
  | [], _, _, h => absurd h (List.not_mem_nil _)
  | hd :: rest, hnd, kv, h => by
    rcases List.mem_cons.mp h with h | h
    · subst h
      simp [alget]
    · have hne : hd.1 ≠ kv.1 := by
        intro hh
        have : kv.1 ∈ rest.map Prod.fst := List.mem_map.mpr ⟨kv, h, rfl⟩
        rw [List.map_cons] at hnd
        exact absurd (hh ▸ this) (List.nodup_cons.mp hnd).1
      rw [alget, if_neg (by simpa using hne)]
      exact alget_of_mem_nodup (List.nodup_cons.mp (List.map_cons _ hd rest ▸ hnd)).2 h

theorem removeFold_ret_sound :
    ∀ (hs : List Nat) (acc : List Orphan × List (Nat × Orphan)) (o : Orphan),
      o ∈ (removeFold hs acc).1 →
      o ∈ acc.1 ∨ ∃ k ∈ hs, alget k acc.2 = some o
  | [], acc, o, h => Or.inl h
  | h :: rest, acc, o, hmem => by
    rw [removeFold] at hmem
    cases hget : alget h acc.2 with
    | some o' =>
      rw [hget] at hmem
      rcases removeFold_ret_sound rest _ o hmem with hin | ⟨k, hk, hkget⟩
      · rcases List.mem_append.mp hin with hin | hin
        · exact Or.inl hin
        · simp only [List.mem_singleton] at hin
          subst hin
          exact Or.inr ⟨h, List.mem_cons_self _ _, hget⟩
      · have hne : k ≠ h := by
          intro hh
          rw [hh, alget_alerase_self] at hkget
          cases hkget
        rw [alget_alerase_ne hne] at hkget
        exact Or.inr ⟨k, List.mem_cons_of_mem _ hk, hkget⟩
    | none =>
      rw [hget] at hmem
      rcases removeFold_ret_sound rest _ o hmem with hin | ⟨k, hk, hkget⟩
      · exact Or.inl hin
      · exact Or.inr ⟨k, List.mem_cons_of_mem _ hk, hkget⟩

theorem removeFold_ret_complete :
    ∀ (hs : List Nat) (acc : List Orphan × List (Nat × Orphan)) (k : Nat) (o : Orphan),
      (o ∈ acc.1 ∨ (k ∈ hs ∧ alget k acc.2 = some o)) →
      o ∈ (removeFold hs acc).1
  | [], acc, k, o, h => by
    rcases h with h | ⟨hk, -⟩
    · exact h
    · exact absurd hk (List.not_mem_nil _)
  | h :: rest, acc, k, o, hmem => by
    rw [removeFold]
    cases hget : alget h acc.2 with
    | some o' =>
      apply removeFold_ret_complete rest _ k o
      rcases hmem with hin | ⟨hk, hkget⟩
      · exact Or.inl (List.mem_append_left _ hin)
      · by_cases hkh : k = h
        · subst hkh
          rw [hget] at hkget
          cases hkget
          exact Or.inl (List.mem_append_right _ (List.mem_singleton.mpr rfl))
        · rcases List.mem_cons.mp hk with hk' | hk'
          · exact absurd hk' hkh
          · exact Or.inr ⟨hk', by rw [alget_alerase_ne hkh]; exact hkget⟩
    | none =>
      apply removeFold_ret_complete rest _ k o
      rcases hmem with hin | ⟨hk, hkget⟩
      · exact Or.inl hin
      · rcases List.mem_cons.mp hk with hk' | hk'
        · subst hk'
          rw [hget] at hkget
          cases hkget
        · exact Or.inr ⟨hk', hkget⟩

/-- C8 counterexample: removing by parent 10 returns orphan A (hash 1), yet
hash 1 is not purged from the height index — its bucket also holds the
still-live hash 2 and is therefore kept whole. -/
theorem c8_counterexample :
    (poolA.remove_by_prev_hash 10).1 = some [orphA] ∧
    (poolA.remove_by_prev_hash 10).2.contains 1 = false ∧
    1 ∈ (alget 5 (poolA.remove_by_prev_hash 10).2.height_idx).getD [] := by decide

/-- C8 (amended): for a well-formed pool, `remove_by_prev_hash h` returns
exactly the orphans whose `prev_hash` is `h` and removes each of them from
the pool (`contains` is false afterwards and no orphan with `prev_hash = h`
remains); the bucket for `h` is removed from the prev-hash index, while a
height-index entry survives only if it still holds a hash outside the removed
bucket (removed hashes may linger inside surviving entries). -/
theorem c8_amended (p : OrphanBlockPool) (h : Nat) (hp : PoolInvPrev p) :
    (∀ o ∈ ((p.remove_by_prev_hash h).1.getD []), o.block.header.inner.prev_hash = h) ∧
    (∀ kv ∈ p.orphans, kv.2.block.header.inner.prev_hash = h →
      kv.2 ∈ ((p.remove_by_prev_hash h).1.getD [])) ∧
    (∀ o ∈ ((p.remove_by_prev_hash h).1.getD []),
      (p.remove_by_prev_hash h).2.contains o.block.hash = false) ∧
    (∀ kv ∈ (p.remove_by_prev_hash h).2.orphans,
      kv.2.block.header.inner.prev_hash ≠ h) ∧
    alget h (p.remove_by_prev_hash h).2.prev_hash_idx = none ∧
    (∀ e ∈ (p.remove_by_prev_hash h).2.height_idx,
      ∃ x ∈ e.2, x ∉ (alget h p.prev_hash_idx).getD []) := by
  obtain ⟨hnd, hkey, hpcov, hpsound⟩ := hp
  unfold OrphanBlockPool.remove_by_prev_hash
  cases hget : alget h p.prev_hash_idx with
  | none =>
    simp only [Option.getD_none]
    have hnoprev : ∀ kv ∈ p.orphans, kv.2.block.header.inner.prev_hash ≠ h := by
      intro kv hkv hprev
      obtain ⟨b, hb, -⟩ := hpcov kv hkv
      rw [hprev, hget] at hb
      cases hb
    refine ⟨by simp, ?_, by simp, hnoprev, hget, ?_⟩
    · intro kv hkv hprev
      exact absurd hprev (hnoprev kv hkv)
    · intro e he
      have hpred := (List.mem_filter.mp he).2
      simp only [List.any_eq_true] at hpred
      obtain ⟨x, hx, -⟩ := hpred
      exact ⟨x, hx, List.not_mem_nil _⟩
  | some hs =>
    simp only [Option.getD_some]
    have hmem_entry : (h, hs) ∈ p.prev_hash_idx := alget_mem hget
    have hsound : ∀ o ∈ (removeFold hs ([], p.orphans)).1,
        o.block.header.inner.prev_hash = h ∧ o.block.hash ∈ hs := by
      intro o ho
      rcases removeFold_ret_sound hs _ o ho with hin | ⟨k, hk, hkget⟩
      · exact absurd hin (List.not_mem_nil _)
      · have hko := alget_mem hkget
        have := hpsound (h, hs) hmem_entry k hk o hkget
        exact ⟨this, by rw [hkey (k, o) hko]; exact hk⟩
    refine ⟨fun o ho => (hsound o ho).1, ?_, ?_, ?_, alget_alerase_self, ?_⟩
    · intro kv hkv hprev
      obtain ⟨b, hb, hkb⟩ := hpcov kv hkv
      rw [hprev, hget] at hb
      cases hb
      exact removeFold_ret_complete hs ([], p.orphans) kv.1 kv.2
        (Or.inr ⟨hkb, alget_of_mem_nodup hnd hkv⟩)
    · intro o ho
      have hk := (hsound o ho).2
      have : ∀ kv ∈ (removeFold hs ([], p.orphans)).2, kv.1 ≠ o.block.hash := by
        intro kv hkv hh
        exact absurd (hh ▸ hk) (removeFold_mem2 hs _ kv hkv).2
      simp only [OrphanBlockPool.contains]
      rw [alget_eq_none_iff.mpr this]
      rfl
    · intro kv hkv hprev
      have hm := removeFold_mem2 hs _ kv hkv
      obtain ⟨b, hb, hkb⟩ := hpcov kv hm.1
      rw [hprev, hget] at hb
      cases hb
      exact hm.2 hkb
    · intro e he
      have hpred := (List.mem_filter.mp he).2
      simp only [List.any_eq_true] at hpred
      obtain ⟨x, hx, hxc⟩ := hpred
      refine ⟨x, hx, ?_⟩
      intro hxin
      simp [hxin] at hxc

/-- Witness for the amended C8 at the concrete pool `poolA`. -/
theorem c8_amended_witness :
    (∀ o ∈ ((poolA.remove_by_prev_hash 11).1.getD []), o.block.header.inner.prev_hash = 11) ∧
    (∀ kv ∈ poolA.orphans, kv.2.block.header.inner.prev_hash = 11 →
      kv.2 ∈ ((poolA.remove_by_prev_hash 11).1.getD [])) ∧
    (∀ o ∈ ((poolA.remove_by_prev_hash 11).1.getD []),
      (poolA.remove_by_prev_hash 11).2.contains o.block.hash = false) ∧
    (∀ kv ∈ (poolA.remove_by_prev_hash 11).2.orphans,
      kv.2.block.header.inner.prev_hash ≠ 11) ∧
    alget 11 (poolA.remove_by_prev_hash 11).2.prev_hash_idx = none ∧
    (∀ e ∈ (poolA.remove_by_prev_hash 11).2.height_idx,
      ∃ x ∈ e.2, x ∉ (alget 11 poolA.prev_hash_idx).getD []) :=
  c8_amended poolA 11 (by decide)

/-! ## Regex matcher correctness and claim C9 -/

theorem RMatch.nil_of {r : Regex} {s : List Char} (h : RMatch r s) :
    s = [] → r.nullable = true := by
  induction h with
  | eps => intro _; rfl
  | cls _ => intro hh; cases hh
  | altl _ ih => intro hh; simp [Regex.nullable, ih hh]
  | altr _ ih => intro hh; simp [Regex.nullable, ih hh]
  | cat _ _ ih1 ih2 =>
    intro hh
    rcases List.append_eq_nil.mp hh with ⟨h1, h2⟩
    simp [Regex.nullable, ih1 h1, ih2 h2]
  | star_nil => intro _; rfl
  | star_cat _ _ _ _ => intro hh; cases hh

theorem nullable_iff {r : Regex} : r.nullable = true ↔ RMatch r [] := by
  constructor
  · intro h
    induction r with
    | emp => cases h
    | eps => exact RMatch.eps
    | cls p => cases h
    | alt a b iha ihb =>
      rcases Bool.or_eq_true_iff.mp h with h | h
      · exact RMatch.altl (iha h)
      · exact RMatch.altr (ihb h)
    | cat a b iha ihb =>
      rcases Bool.and_eq_true_iff.mp h with ⟨h1, h2⟩
      exact (List.nil_append ([] : List Char) ▸ RMatch.cat (iha h1) (ihb h2))
    | star r ih => exact RMatch.star_nil
  · intro h
    exact h.nil_of rfl

theorem deriv_sound {c : Char} :
    ∀ {r : Regex} {s : List Char}, RMatch (r.deriv c) s → RMatch r (c :: s)
  | .emp, s, h => by cases h
  | .eps, s, h => by cases h
  | .cls p, s, h => by
    by_cases hp : p c = true
    · rw [Regex.deriv, if_pos hp] at h
      cases h
      exact RMatch.cls hp
    · rw [Regex.deriv, if_neg hp] at h
      cases h
  | .alt a b, s, h => by
    rw [Regex.deriv] at h
    cases h with
    | altl h => exact RMatch.altl (deriv_sound h)
    | altr h => exact RMatch.altr (deriv_sound h)
  | .cat a b, s, h => by
    rw [Regex.deriv] at h
    by_cases hn : a.nullable = true
    · rw [if_pos hn] at h
      cases h with
      | altl h =>
        cases h with
        | cat h1 h2 => exact RMatch.cat (deriv_sound h1) h2
      | altr h =>
        have := RMatch.cat (nullable_iff.mp hn) (deriv_sound h)
        simpa using this
    · rw [if_neg hn] at h
      cases h with
      | cat h1 h2 => exact RMatch.cat (deriv_sound h1) h2
  | .star r, s, h => by
    rw [Regex.deriv] at h
    cases h with
    | cat h1 h2 => exact RMatch.star_cat (deriv_sound h1) h2

theorem deriv_complete {r : Regex} {u : List Char} (h : RMatch r u) :
    ∀ c s, u = c :: s → RMatch (r.deriv c) s := by
  induction h with
  | eps => intro c s hh; cases hh
  | cls hp =>
    intro c s hh
    cases hh
    rw [Regex.deriv, if_pos hp]
    exact RMatch.eps
  | altl h ih =>
    intro c s hh
    rw [Regex.deriv]
    exact RMatch.altl (ih c s hh)
  | altr h ih =>
    intro c s hh
    rw [Regex.deriv]
    exact RMatch.altr (ih c s hh)
  | @cat a b s1 s2 h1 h2 ih1 ih2 =>
    intro c s hh
    rw [Regex.deriv]
    cases s1 with
    | nil =>
      have hn : a.nullable = true := nullable_iff.mpr h1
      rw [if_pos hn]
      simp only [List.nil_append] at hh
      exact RMatch.altr (ih2 c s hh)
    | cons c1 s1' =>
      simp only [List.cons_append, List.cons.injEq] at hh
      obtain ⟨rfl, hs⟩ := hh
      have hd : RMatch (a.deriv c1) s1' := ih1 c1 s1' rfl
      by_cases hn : a.nullable = true
      · rw [if_pos hn]
        exact RMatch.altl (hs ▸ RMatch.cat hd h2)
      · rw [if_neg hn]
        exact hs ▸ RMatch.cat hd h2
  | star_nil => intro c s hh; cases hh
  | @star_cat r c1 s1 s2 h1 h2 ih1 ih2 =>
    intro c s hh
    simp only [List.cons_append, List.cons.injEq] at hh
    obtain ⟨rfl, hs⟩ := hh
    rw [Regex.deriv]
    exact hs ▸ RMatch.cat (ih1 c1 s1 rfl) h2

theorem rmatch_iff : ∀ (s : List Char) (r : Regex), r.rmatch s = true ↔ RMatch r s
  | [], r => by
    rw [Regex.rmatch]
    exact nullable_iff
  | c :: s, r => by
    rw [Regex.rmatch]
    constructor
    · intro h
      exact deriv_sound ((rmatch_iff s (r.deriv c)).mp h)
    · intro h
      exact (rmatch_iff s (r.deriv c)).mpr (deriv_complete h c s rfl)

/-- C9: `is_valid_account_id` accepts exactly the strings whose UTF-8 byte
length lies between 2 and 64 and that match the account-ID regular expression
`^(([a-z\d]+[\-_])*[a-z\d]+[\.@])*([a-z\d]+[\-_])*[a-z\d]+$`, for every
digit-class table `nd` — in particular for the `regex` crate's Unicode
`\p{Nd}` table. -/
theorem c9_is_valid_account_id (nd : Char → Bool) (a : String) :
    is_valid_account_id nd a = true ↔
      2 ≤ a.utf8ByteSize ∧ a.utf8ByteSize ≤ 64 ∧ RMatch (VALID_ACCOUNT_ID nd) a.data := by
  rw [is_valid_account_id]
  simp only [Bool.and_eq_true, decide_eq_true_eq, MIN_ACCOUNT_ID_LEN, MAX_ACCOUNT_ID_LEN,
    rmatch_iff, and_assoc]

/-! ## Claim C10: view-client transaction results -/

/-- C10: a transaction hash whose result is absent from the chain store yields
`Ok` with the default `Unknown` result, and an `Err` arises only from a store
failure other than `DBNotFoundErr`. -/
theorem c10_get_transaction_result :
    (∀ (s : Store) (hash : Nat), alget hash s.txResults = none →
      ViewClientActor.get_transaction_result_of_store s hash =
        .ok TransactionResult.unknownDefault) ∧
    (∀ (res : Except ErrorKind TransactionResult) (msg : String),
      ViewClientActor.get_transaction_result res = .error msg →
      ∃ e, res = .error e ∧ ∀ m, e ≠ .DBNotFoundErr m) := by
  constructor
  · intro s hash habs
    rw [ViewClientActor.get_transaction_result_of_store, Store.get_transaction_result, habs]
    rfl
  · intro res msg herr
    cases res with
    | ok r => cases herr
    | error e =>
      cases e with
      | DBNotFoundErr m => cases herr
      | Orphan => exact ⟨_, rfl, fun m => by simp⟩
      | Unfit m => exact ⟨_, rfl, fun m => by simp⟩
      | OldBlock => exact ⟨_, rfl, fun m => by simp⟩
      | InvalidSignature => exact ⟨_, rfl, fun m => by simp⟩
      | InvalidBlockFutureTime ts => exact ⟨_, rfl, fun m => by simp⟩
      | InvalidBlockPastTime pts ts => exact ⟨_, rfl, fun m => by simp⟩
      | InvalidBlockWeight => exact ⟨_, rfl, fun m => by simp⟩
      | InvalidStateRoot => exact ⟨_, rfl, fun m => by simp⟩
      | InvalidStatePayload m => exact ⟨_, rfl, fun m => by simp⟩
      | IOErr m => exact ⟨_, rfl, fun m => by simp⟩
      | Other m => exact ⟨_, rfl, fun m => by simp⟩

/-- Witness for C10 on a concrete absent hash and a concrete IO failure. -/
theorem c10_get_transaction_result_witness :
    ViewClientActor.get_transaction_result_of_store store0 99 =
      .ok TransactionResult.unknownDefault ∧
    ∃ e, (Except.error (ErrorKind.IOErr "disk") :
        Except ErrorKind TransactionResult) = .error e ∧
      ∀ m, e ≠ ErrorKind.DBNotFoundErr m :=
  ⟨c10_get_transaction_result.1 store0 99 rfl,
    c10_get_transaction_result.2 (.error (.IOErr "disk")) "IOErr disk" rfl⟩

/-! ## Claim C7: the `OldBlock` classification of stored duplicates -/

/-- C7 counterexample: a stored block at height 30 with HEAD at height 200 is
more than 50 below HEAD, yet `process_block` rejects it with
`Unfit "already known in store"`, not `OldBlock` (the code also requires
`height > 50`). -/
theorem c7_counterexample :
    store7.block_exists b30.hash = true ∧
    b30.header.inner.height + 50 < store7.head.height ∧
    (Chain.process_block rt0 0 100 cs7 b30 .NONE).1 =
      .error (.Unfit "already known in store") := by decide

/-- C7 (amended): for an already-stored block, `check_known_store` fails with
`OldBlock` exactly when `height > 50` and `height < HEAD.height - 50`
(wrapping `u64` subtraction), and with `Unfit "already known in store"` in
every other already-stored case; `process_block` itself re-wraps `OldBlock`
as `Other` (see the C1 theorem). -/
theorem c7_amended (s : Store) (header : BlockHeader)
    (hstored : s.block_exists header.hash = true) :
    (ChainUpdate.check_known_store s header = .error .OldBlock ↔
      (50 < header.inner.height ∧ header.inner.height < u64sub s.head.height 50)) ∧
    (¬(50 < header.inner.height ∧ header.inner.height < u64sub s.head.height 50) →
      ChainUpdate.check_known_store s header = .error (.Unfit "already known in store")) := by
  by_cases hc : 50 < header.inner.height ∧ header.inner.height < u64sub s.head.height 50
  · have heq : ChainUpdate.check_known_store s header = .error .OldBlock := by
      rw [ChainUpdate.check_known_store, if_pos hstored, if_pos]
      simp [hc.1, hc.2]
    refine ⟨by simp [heq, hc], fun hnc => absurd hc hnc⟩
  · have heq : ChainUpdate.check_known_store s header =
        .error (.Unfit "already known in store") := by
      rw [ChainUpdate.check_known_store, if_pos hstored, if_neg]
      simpa [Bool.and_eq_true, decide_eq_true_eq] using hc
    refine ⟨?_, fun _ => heq⟩
    rw [heq]
    simp [hc]

/-- Witness for the amended C7 at the concrete far-below-HEAD duplicate. -/
theorem c7_amended_witness :
    (ChainUpdate.check_known_store store7 b30.header = .error .OldBlock ↔
      (50 < b30.header.inner.height ∧
        b30.header.inner.height < u64sub store7.head.height 50)) ∧
    (¬(50 < b30.header.inner.height ∧
        b30.header.inner.height < u64sub store7.head.height 50) →
      ChainUpdate.check_known_store store7 b30.header =
        .error (.Unfit "already known in store")) :=
  c7_amended store7 b30.header (by decide)

/-! ## Claim C6: `check_state_needed` -/

/-- C6 counterexample: the hash 102 is returned although its block is stored
— the walk collects every header between HEADER_HEAD and the stop point, not
only those with missing blocks. -/
theorem c6_counterexample :
    Chain.check_state_needed store6 100 10 = (false, [103, 102]) ∧
    store6.block_exists 102 = true := by decide

theorem csnLoop_eq_walk (s : Store) :
    ∀ (fuel : Nat) (cur : Option BlockHeader) (oldest : Nat) (hashes : List Nat),
      csnLoop s fuel cur oldest hashes =
        ((((csnWalkSpec s fuel cur).getLast?).map (fun h => h.inner.height)).getD oldest,
          hashes ++ (csnWalkSpec s fuel cur).map BlockHeader.hash)
  | 0, cur, oldest, hashes => by
    cases cur <;> simp [csnLoop, csnWalkSpec]
  | fuel + 1, none, oldest, hashes => by simp [csnLoop, csnWalkSpec]
  | fuel + 1, some header, oldest, hashes => by
    rw [csnLoop, csnWalkSpec]
    by_cases hstop :
        (header.inner.height ≤ s.head.height && Chain.is_on_current_chain s header) = true
    · rw [if_pos hstop, if_pos hstop]
      simp
    · rw [if_neg hstop, if_neg hstop]
      rw [csnLoop_eq_walk s fuel]
      cases hwalk : csnWalkSpec s fuel (alget header.inner.prev_hash s.headers) with
      | nil => simp
      | cons w ws =>
        obtain ⟨x, hx⟩ : ∃ x, (w :: ws).getLast? = some x := by
          cases hlast : (w :: ws).getLast? with
          | some x => exact ⟨x, rfl⟩
          | none => simp [List.getLast?_eq_none_iff] at hlast
        simp [List.getLast?_cons_cons, hx]

/-- C6 (amended): `check_state_needed` coincides with its declarative
restatement: it collects every header walked back from HEADER_HEAD — whether
or not its block is stored — stopping at the first header that is on the
current chain AND at height at or below HEAD; it signals `state_needed` with
an empty list exactly when the oldest walked height (0 if none) is below
SYNC_HEAD.height minus the horizon (saturating), and otherwise returns the
walked hashes newest-first. -/
theorem c6_amended (s : Store) (block_fetch_horizon fuel : Nat) :
    Chain.check_state_needed s block_fetch_horizon fuel =
      checkStateNeededSpec s block_fetch_horizon fuel := by
  rw [Chain.check_state_needed, checkStateNeededSpec]
  by_cases hw : s.headerHead.total_weight ≤ s.head.total_weight
  · rw [if_pos hw, if_pos hw]
  · rw [if_neg hw, if_neg hw]
    rw [csnLoop_eq_walk]
    simp

/-! ## Claim C5: the header-sync fast path -/

/-- C5 counterexample: header 101 is already stored, yet the call moves
SYNC_HEAD to it — the "fast path" is not a complete no-op. -/
theorem c5_counterexample :
    (alget (mkHeader 101 1 100).hash cs5.store.headers).isSome = true ∧
    (Chain.sync_block_headers rt0 10 cs5 [mkHeader 101 1 100]).2.store.syncHead ≠
      cs5.store.syncHead := by decide

/-- C5 (amended): when the last header (after sorting by height) is already
stored, `sync_block_headers` saves no header, records no validator
proposals, and leaves blocks, HEAD and the orphan pool unchanged — but it
still sets SYNC_HEAD to that last header and advances HEADER_HEAD if the
last header's total weight exceeds it. -/
theorem c5_amended (rt : RuntimeAdapter) (now : Nat) (cs : ChainState)
    (headers : List BlockHeader) (last_header : BlockHeader)
    (hlast : (sortByKey (fun h => h.inner.height) headers).getLast? = some last_header)
    (hknown : (alget last_header.hash cs.store.headers).isSome = true) :
    (Chain.sync_block_headers rt now cs headers).1 = .ok () ∧
    (Chain.sync_block_headers rt now cs headers).2.store.headers = cs.store.headers ∧
    (Chain.sync_block_headers rt now cs headers).2.store.blocks = cs.store.blocks ∧
    (Chain.sync_block_headers rt now cs headers).2.store.epochProposals =
      cs.store.epochProposals ∧
    (Chain.sync_block_headers rt now cs headers).2.store.head = cs.store.head ∧
    (Chain.sync_block_headers rt now cs headers).2.store.syncHead =
      Tip.from_header last_header ∧
    ((Chain.sync_block_headers rt now cs headers).2.store.headerHead =
      if cs.store.headerHead.total_weight < last_header.inner.total_weight
        then Tip.from_header last_header else cs.store.headerHead) ∧
    (Chain.sync_block_headers rt now cs headers).2.orphans = cs.orphans := by
  cases hsorted : sortByKey (fun h => h.inner.height) headers with
  | nil => rw [hsorted] at hlast; cases hlast
  | cons hd tl =>
    rw [hsorted] at hlast
    have hCU : ChainUpdate.sync_block_headers rt now cs.store headers =
        .ok ((ChainUpdate.update_header_head
            (ChainUpdate.update_sync_head cs.store last_header) last_header).1,
          (ChainUpdate.update_header_head
            (ChainUpdate.update_sync_head cs.store last_header) last_header).2) := by
      rw [ChainUpdate.sync_block_headers]
      simp only [hsorted, List.head?_cons, hlast, hknown, Bool.not_true, Bool.false_eq_true,
        if_false]
    rw [Chain.sync_block_headers, hCU]
    rw [ChainUpdate.update_header_head]
    by_cases hw : (ChainUpdate.update_sync_head cs.store last_header).headerHead.total_weight <
        last_header.inner.total_weight
    · rw [if_pos hw]
      have hw' : cs.store.headerHead.total_weight < last_header.inner.total_weight := hw
      simp [ChainUpdate.update_sync_head, Store.save_sync_head, Store.save_header_head,
        hw', Tip.from_header]
    · rw [if_neg hw]
      have hw' : ¬cs.store.headerHead.total_weight < last_header.inner.total_weight := hw
      simp [ChainUpdate.update_sync_head, Store.save_sync_head, hw']

/-- Witness for the amended C5 at the concrete already-stored header. -/
theorem c5_amended_witness :
    (Chain.sync_block_headers rt0 10 cs5 [mkHeader 101 1 100]).1 = .ok () ∧
    (Chain.sync_block_headers rt0 10 cs5 [mkHeader 101 1 100]).2.store.headers =
      cs5.store.headers ∧
    (Chain.sync_block_headers rt0 10 cs5 [mkHeader 101 1 100]).2.store.blocks =
      cs5.store.blocks ∧
    (Chain.sync_block_headers rt0 10 cs5 [mkHeader 101 1 100]).2.store.epochProposals =
      cs5.store.epochProposals ∧
    (Chain.sync_block_headers rt0 10 cs5 [mkHeader 101 1 100]).2.store.head =
      cs5.store.head ∧
    (Chain.sync_block_headers rt0 10 cs5 [mkHeader 101 1 100]).2.store.syncHead =
      Tip.from_header (mkHeader 101 1 100) ∧
    ((Chain.sync_block_headers rt0 10 cs5 [mkHeader 101 1 100]).2.store.headerHead =
      if cs5.store.headerHead.total_weight < (mkHeader 101 1 100).inner.total_weight
        then Tip.from_header (mkHeader 101 1 100) else cs5.store.headerHead) ∧
    (Chain.sync_block_headers rt0 10 cs5 [mkHeader 101 1 100]).2.orphans = cs5.orphans :=
  c5_amended rt0 10 cs5 [mkHeader 101 1 100] (mkHeader 101 1 100) (by decide) (by decide)

/-! ## Claim C1: re-processing an already stored block -/

/-- C1 counterexample: block `b1` is processed successfully and becomes HEAD;
feeding it again fails with `Unfit "already known in head"`, not
`Unfit "already known in store"`. -/
theorem c1_counterexample :
    (Chain.process_block rt0 10 100 cs0 b1 .NONE).1 =
      .ok (some (Tip.from_header b1.header)) ∧
    cs1.store.block_exists b1.hash = true ∧
    (Chain.process_block rt0 10 100 cs1 b1 .NONE).1 =
      .error (.Unfit "already known in head") ∧
    (Chain.process_block rt0 10 100 cs1 b1 .NONE).1 ≠
      .error (.Unfit "already known in store") := by decide

/-- C1 (amended): feeding `process_block` any block that is already stored
fails and leaves the engine state (store and orphan pool) unchanged, with
exactly this case mapping: `Unfit "already known in head"` when the block is
HEAD or HEAD's parent; otherwise `Unfit "already known in orphans"` when it
sits in the orphan pool; otherwise `Other` wrapping the `OldBlock` rendering
when `height > 50` and `height < HEAD.height - 50` (wrapping subtraction);
and `Unfit "already known in store"` in every remaining case. -/
theorem c1_amended (rt : RuntimeAdapter) (now tvp : Nat) (cs : ChainState)
    (block : Block) (provenance : Provenance)
    (hstored : cs.store.block_exists block.hash = true) :
    Chain.process_block rt now tvp cs block provenance =
      (.error (
        if block.header.hash = cs.store.head.last_block_hash ∨
            block.header.hash = cs.store.head.prev_block_hash then
          .Unfit "already known in head"
        else if cs.orphans.contains block.header.hash = true then
          .Unfit "already known in orphans"
        else if 50 < block.header.inner.height ∧
            block.header.inner.height < u64sub cs.store.head.height 50 then
          .Other (errorRepr .OldBlock)
        else .Unfit "already known in store"), cs) := by
  by_cases h1 : block.header.hash = cs.store.head.last_block_hash ∨
      block.header.hash = cs.store.head.prev_block_hash
  · rw [if_pos h1]
    have h1b : (block.header.hash == cs.store.head.last_block_hash
        || block.header.hash == cs.store.head.prev_block_hash) = true := by
      rcases h1 with h | h <;> simp [h]
    have hh : ChainUpdate.check_known_head cs.store block.header =
        .error (.Unfit "already known in head") := by
      rw [ChainUpdate.check_known_head, if_pos h1b]
    have hck : ChainUpdate.check_known cs.orphans cs.store block.header =
        .error (.Unfit "already known in head") := by
      rw [ChainUpdate.check_known, hh]
    have hcu : ChainUpdate.process_block rt now cs.orphans tvp cs.store block provenance =
        .error (.Unfit "already known in head") := by
      rw [ChainUpdate.process_block, hck]
    have hsingle : Chain.process_block_single rt now tvp cs block provenance =
        (.error (.Unfit "already known in head"), cs) := by
      rw [Chain.process_block_single, hcu]
    rw [Chain.process_block, hsingle]
  · rw [if_neg h1]
    have h1b : ¬((block.header.hash == cs.store.head.last_block_hash
        || block.header.hash == cs.store.head.prev_block_hash) = true) := by
      simp only [Bool.or_eq_true, beq_iff_eq]
      exact h1
    have hh : ChainUpdate.check_known_head cs.store block.header = .ok () := by
      rw [ChainUpdate.check_known_head, if_neg h1b]
    by_cases h2 : cs.orphans.contains block.header.hash = true
    · rw [if_pos h2]
      have ho : ChainUpdate.check_known_orphans cs.orphans block.header =
          .error (.Unfit "already known in orphans") := by
        rw [ChainUpdate.check_known_orphans, if_pos h2]
      have hck : ChainUpdate.check_known cs.orphans cs.store block.header =
          .error (.Unfit "already known in orphans") := by
        rw [ChainUpdate.check_known, hh, ho]
      have hcu : ChainUpdate.process_block rt now cs.orphans tvp cs.store block provenance =
          .error (.Unfit "already known in orphans") := by
        rw [ChainUpdate.process_block, hck]
      have hsingle : Chain.process_block_single rt now tvp cs block provenance =
          (.error (.Unfit "already known in orphans"), cs) := by
        rw [Chain.process_block_single, hcu]
      rw [Chain.process_block, hsingle]
    · rw [if_neg h2]
      have ho : ChainUpdate.check_known_orphans cs.orphans block.header = .ok () := by
        rw [ChainUpdate.check_known_orphans, if_neg h2]
      have hstored2 : cs.store.block_exists block.header.hash = true := hstored
      by_cases h3 : 50 < block.header.inner.height ∧
          block.header.inner.height < u64sub cs.store.head.height 50
      · rw [if_pos h3]
        have h3b : (decide (50 < block.header.inner.height) &&
            decide (block.header.inner.height < u64sub cs.store.head.height 50)) = true := by
          simp [h3.1, h3.2]
        have hs : ChainUpdate.check_known_store cs.store block.header =
            .error .OldBlock := by
          rw [ChainUpdate.check_known_store, if_pos hstored2, if_pos h3b]
        have hck : ChainUpdate.check_known cs.orphans cs.store block.header =
            .error .OldBlock := by
          rw [ChainUpdate.check_known, hh, ho, hs]
        have hcu : ChainUpdate.process_block rt now cs.orphans tvp cs.store block
            provenance = .error .OldBlock := by
          rw [ChainUpdate.process_block, hck]
        have hsingle : Chain.process_block_single rt now tvp cs block provenance =
            (.error (.Other (errorRepr .OldBlock)), cs) := by
          rw [Chain.process_block_single, hcu]
        rw [Chain.process_block, hsingle]
      · rw [if_neg h3]
        have h3b : ¬((decide (50 < block.header.inner.height) &&
            decide (block.header.inner.height < u64sub cs.store.head.height 50)) = true) := by
          simp only [Bool.and_eq_true, decide_eq_true_eq]
          exact h3
        have hs : ChainUpdate.check_known_store cs.store block.header =
            .error (.Unfit "already known in store") := by
          rw [ChainUpdate.check_known_store, if_pos hstored2, if_neg h3b]
        have hck : ChainUpdate.check_known cs.orphans cs.store block.header =
            .error (.Unfit "already known in store") := by
          rw [ChainUpdate.check_known, hh, ho, hs]
        have hcu : ChainUpdate.process_block rt now cs.orphans tvp cs.store block
            provenance = .error (.Unfit "already known in store") := by
          rw [ChainUpdate.process_block, hck]
        have hsingle : Chain.process_block_single rt now tvp cs block provenance =
            (.error (.Unfit "already known in store"), cs) := by
          rw [Chain.process_block_single, hcu]
        rw [Chain.process_block, hsingle]

/-- Witness for the amended C1 at the concretely re-fed block `b1`. -/
theorem c1_amended_witness :
    Chain.process_block rt0 10 100 cs1 b1 .NONE =
      (.error (
        if b1.header.hash = cs1.store.head.last_block_hash ∨
            b1.header.hash = cs1.store.head.prev_block_hash then
          .Unfit "already known in head"
        else if cs1.orphans.contains b1.header.hash = true then
          .Unfit "already known in orphans"
        else if 50 < b1.header.inner.height ∧
            b1.header.inner.height < u64sub cs1.store.head.height 50 then
          .Other (errorRepr .OldBlock)
        else .Unfit "already known in store"), cs1) :=
  c1_amended rt0 10 100 cs1 b1 .NONE (by decide)

/-! ## Claim C3: HEAD weight never exceeds HEADER_HEAD weight -/

theorem ravp_heads (rt : RuntimeAdapter) (s : Store) (p h ht : Nat) (props : List Nat)
    (s' : Store) (hok : runAddValidatorProposals rt s p h ht props = .ok s') :
    s'.head = s.head ∧ s'.headerHead = s.headerHead := by
  rw [runAddValidatorProposals] at hok
  cases hr : rt.add_validator_proposals p h ht props with
  | ok u =>
    cases u
    rw [hr] at hok
    injection hok with hok
    subst hok
    exact ⟨rfl, rfl⟩
  | error e => rw [hr] at hok; exact Except.noConfusion hok

theorem uhh_heads (s : Store) (header : BlockHeader) :
    (ChainUpdate.update_header_head s header).2.head = s.head ∧
    s.headerHead.total_weight ≤
      (ChainUpdate.update_header_head s header).2.headerHead.total_weight ∧
    header.inner.total_weight ≤
      (ChainUpdate.update_header_head s header).2.headerHead.total_weight := by
  rw [ChainUpdate.update_header_head]
  by_cases hw : s.headerHead.total_weight < header.inner.total_weight
  · rw [if_pos hw]
    exact ⟨rfl, Nat.le_of_lt hw, Nat.le_refl _⟩
  · rw [if_neg hw]
    exact ⟨rfl, Nat.le_refl _, Nat.le_of_not_lt hw⟩

theorem phfb_heads (rt : RuntimeAdapter) (now : Nat) (s : Store) (header : BlockHeader)
    (prov : Provenance) (s1 : Store)
    (hok : ChainUpdate.process_header_for_block rt now s header prov = .ok s1) :
    s1.head = s.head ∧
    s.headerHead.total_weight ≤ s1.headerHead.total_weight ∧
    header.inner.total_weight ≤ s1.headerHead.total_weight := by
  rw [ChainUpdate.process_header_for_block] at hok
  cases hv : ChainUpdate.validate_header rt now s header prov with
  | error e => rw [hv] at hok; exact Except.noConfusion hok
  | ok u =>
    cases u
    rw [hv] at hok
    injection hok with hok
    subst hok
    exact uhh_heads (Store.save_block_header s header) header

theorem foldl_save_tx_heads :
    ∀ (txr : List TxOutcome) (s : Store),
      ((txr.foldl (fun st r => st.save_transaction_result r.outHash r.outResult) s)).head =
        s.head ∧
      ((txr.foldl (fun st r =>
          st.save_transaction_result r.outHash r.outResult) s)).headerHead =
        s.headerHead
  | [], s => ⟨rfl, rfl⟩
  | r :: rest, s => by
    have ih := foldl_save_tx_heads rest (s.save_transaction_result r.outHash r.outResult)
    simpa [Store.save_transaction_result] using ih

theorem update_head_spec (s : Store) (block : Block) :
    (ChainUpdate.update_head s block).2.headerHead = s.headerHead ∧
    ((ChainUpdate.update_head s block).2.head = s.head ∨
      (ChainUpdate.update_head s block).2.head.total_weight =
        block.header.inner.total_weight) := by
  rw [ChainUpdate.update_head]
  by_cases hw : s.head.total_weight < block.header.inner.total_weight
  · rw [if_pos hw]
    exact ⟨rfl, Or.inr rfl⟩
  · rw [if_neg hw]
    exact ⟨rfl, Or.inl rfl⟩

theorem cu_process_block_I1 (rt : RuntimeAdapter) (now : Nat) (orphans : OrphanBlockPool)
    (tvp : Nat) (s : Store) (block : Block) (prov : Provenance) (mt : Option Tip)
    (s' : Store)
    (hok : ChainUpdate.process_block rt now orphans tvp s block prov = .ok (mt, s'))
    (hI : s.head.total_weight ≤ s.headerHead.total_weight) :
    s'.head.total_weight ≤ s'.headerHead.total_weight := by
  rw [ChainUpdate.process_block] at hok
  cases hck : ChainUpdate.check_known orphans s block.header with
  | error e => rw [hck] at hok; dsimp only at hok; exact Except.noConfusion hok
  | ok u =>
  cases u
  rw [hck] at hok
  dsimp only at hok
  cases hsig : ChainUpdate.check_header_signature rt block.header with
  | error e => rw [hsig] at hok; dsimp only at hok; exact Except.noConfusion hok
  | ok u2 =>
  cases u2
  rw [hsig] at hok
  dsimp only at hok
  cases hprev : ChainUpdate.get_previous_header s block.header with
  | error e => rw [hprev] at hok; dsimp only at hok; exact Except.noConfusion hok
  | ok prev =>
  rw [hprev] at hok
  dsimp only at hok
  split at hok
  · exact Except.noConfusion hok
  cases hph : ChainUpdate.process_header_for_block rt now s block.header prov with
  | error e => rw [hph] at hok; dsimp only at hok; exact Except.noConfusion hok
  | ok s1 =>
  rw [hph] at hok
  dsimp only at hok
  obtain ⟨hhead1, hhw1, hbw1⟩ := phfb_heads rt now s block.header prov s1 hph
  cases hroot : s1.get_post_state_root prev.hash with
  | error e => rw [hroot] at hok; dsimp only at hok; exact Except.noConfusion hok
  | ok state_root =>
  rw [hroot] at hok
  dsimp only at hok
  split at hok
  · exact Except.noConfusion hok
  split at hok
  · exact Except.noConfusion hok
  cases hrec : s1.get_receipts prev.hash with
  | error e => rw [hrec] at hok; dsimp only at hok; exact Except.noConfusion hok
  | ok receipts =>
  rw [hrec] at hok
  dsimp only at hok
  cases happ : rt.apply_transactions 0 block.header.inner.prev_state_root
      block.header.inner.height block.header.inner.prev_hash
      block.header.hash [receipts] block.transactions with
  | error e => rw [happ] at hok; dsimp only at hok; exact Except.noConfusion hok
  | ok tup =>
  obtain ⟨tc, sr', txr, nr, vp⟩ := tup
  rw [happ] at hok
  dsimp only at hok
  cases hadd : runAddValidatorProposals rt
      ((s1.save_post_state_root block.hash sr').save_post_validator_proposals block.hash vp)
      block.header.inner.prev_hash block.hash block.header.inner.height vp with
  | error e => rw [hadd] at hok; dsimp only at hok; exact Except.noConfusion hok
  | ok s4 =>
  rw [hadd] at hok
  dsimp only at hok
  obtain ⟨hh4, hhh4⟩ := ravp_heads rt _ _ _ _ _ s4 hadd
  injection hok with hok
  obtain ⟨-, hs'⟩ := Prod.mk.inj hok
  subst hs'
  obtain ⟨huh1, huh2⟩ := update_head_spec
    ((txr.foldl (fun st r => st.save_transaction_result r.outHash r.outResult)
      ((s4.save_trie_changes tc).save_receipt block.hash
        ((alget 0 nr).getD []))).save_block block) block
  have hfoldl := foldl_save_tx_heads txr
    ((s4.save_trie_changes tc).save_receipt block.hash ((alget 0 nr).getD []))
  have hXhh : ((txr.foldl (fun st r => st.save_transaction_result r.outHash r.outResult)
      ((s4.save_trie_changes tc).save_receipt block.hash
        ((alget 0 nr).getD []))).save_block block).headerHead = s1.headerHead := by
    show (txr.foldl (fun st r => st.save_transaction_result r.outHash r.outResult)
      ((s4.save_trie_changes tc).save_receipt block.hash
        ((alget 0 nr).getD []))).headerHead = s1.headerHead
    rw [hfoldl.2]
    exact hhh4
  have hXhd : ((txr.foldl (fun st r => st.save_transaction_result r.outHash r.outResult)
      ((s4.save_trie_changes tc).save_receipt block.hash
        ((alget 0 nr).getD []))).save_block block).head = s1.head := by
    show (txr.foldl (fun st r => st.save_transaction_result r.outHash r.outResult)
      ((s4.save_trie_changes tc).save_receipt block.hash
        ((alget 0 nr).getD []))).head = s1.head
    rw [hfoldl.1]
    exact hh4
  rw [huh1, hXhh]
  rcases huh2 with hcase | hcase
  · rw [hcase, hXhd, hhead1]
    omega
  · rw [hcase]
    exact hbw1

theorem single_I1 (rt : RuntimeAdapter) (now tvp : Nat) (cs : ChainState) (b : Block)
    (prov : Provenance) (h : I1 cs) :
    I1 (Chain.process_block_single rt now tvp cs b prov).2 := by
  rw [Chain.process_block_single]
  cases hcu : ChainUpdate.process_block rt now cs.orphans tvp cs.store b prov with
  | ok pr =>
    obtain ⟨tip, s'⟩ := pr
    exact cu_process_block_I1 rt now cs.orphans tvp cs.store b prov tip s' hcu h
  | error e => cases e <;> exact h

theorem batch_I1 (rt : RuntimeAdapter) (now tvp : Nat) :
    ∀ (os : List Orphan) (cs : ChainState) (q : List Nat) (acc : Option Tip),
      I1 cs → I1 (processOrphansBatch rt now tvp os cs q acc).1
  | [], _, _, _, h => h
  | o :: rest, cs, q, acc, h => by
    rw [processOrphansBatch]
    cases hr : (Chain.process_block_single rt now tvp cs o.block o.provenance).1 with
    | ok mt =>
      exact batch_I1 rt now tvp rest _ _ _ (single_I1 rt now tvp cs o.block o.provenance h)
    | error e =>
      exact batch_I1 rt now tvp rest _ _ _ (single_I1 rt now tvp cs o.block o.provenance h)

theorem go_I1 (rt : RuntimeAdapter) (now tvp : Nat) :
    ∀ (fuel : Nat) (cs : ChainState) (q : List Nat) (acc : Option Tip),
      I1 cs → I1 (checkOrphansGo rt now tvp fuel cs q acc).2
  | 0, _, _, _, h => h
  | _ + 1, _, [], _, h => h
  | fuel + 1, cs, qh :: qt, acc, h => by
    rw [checkOrphansGo]
    cases hrm : cs.orphans.remove_by_prev_hash qh with
    | mk mo pool' =>
      cases mo with
      | some orphans =>
        exact go_I1 rt now tvp fuel _ _ _
          (batch_I1 rt now tvp orphans { cs with orphans := pool' } [] acc h)
      | none =>
        exact go_I1 rt now tvp fuel { cs with orphans := pool' } qt acc h

theorem pb_I1 (rt : RuntimeAdapter) (now tvp : Nat) (cs : ChainState) (b : Block)
    (prov : Provenance) (h : I1 cs) :
    I1 (Chain.process_block rt now tvp cs b prov).2 := by
  rw [Chain.process_block]
  have hd : I1 (Chain.check_orphans rt now tvp
      (Chain.process_block_single rt now tvp cs b prov).2 b.hash).2 := by
    rw [Chain.check_orphans]
    exact go_I1 rt now tvp _ _ _ _ (single_I1 rt now tvp cs b prov h)
  cases hr : (Chain.process_block_single rt now tvp cs b prov).1 with
  | ok mt =>
    dsimp only
    cases hdm : (Chain.check_orphans rt now tvp
        (Chain.process_block_single rt now tvp cs b prov).2 b.hash).1 with
    | some tip => exact hd
    | none => exact hd
  | error e => exact single_I1 rt now tvp cs b prov h

theorem syncSaveLoop_heads (rt : RuntimeAdapter) (now : Nat) :
    ∀ (hdrs : List BlockHeader) (s s1 : Store),
      syncSaveLoop rt now s hdrs = .ok s1 →
      s1.head = s.head ∧ s1.headerHead = s.headerHead
  | [], s, s1, h => by
    simp only [syncSaveLoop] at h
    injection h with h
    subst h
    exact ⟨rfl, rfl⟩
  | header :: rest, s, s1, h => by
    simp only [syncSaveLoop] at h
    cases hv : ChainUpdate.validate_header rt now s header .SYNC with
    | error e => rw [hv] at h; dsimp only at h; exact Except.noConfusion h
    | ok u =>
      cases u
      rw [hv] at h
      dsimp only at h
      cases hadd : runAddValidatorProposals rt (s.save_block_header header)
          header.inner.prev_hash header.hash header.inner.height
          header.inner.validator_proposals with
      | error e => rw [hadd] at h; dsimp only at h; exact Except.noConfusion h
      | ok s2 =>
        rw [hadd] at h
        dsimp only at h
        obtain ⟨hh2, hhh2⟩ := ravp_heads rt _ _ _ _ _ s2 hadd
        obtain ⟨ih1, ih2⟩ := syncSaveLoop_heads rt now rest s2 s1 h
        have hh2' : s2.head = s.head := hh2
        have hhh2' : s2.headerHead = s.headerHead := hhh2
        exact ⟨ih1.trans hh2', ih2.trans hhh2'⟩

theorem cu_sync_I1 (rt : RuntimeAdapter) (now : Nat) (s : Store)
    (headers : List BlockHeader) (mt : Option Tip) (s' : Store)
    (hok : ChainUpdate.sync_block_headers rt now s headers = .ok (mt, s'))
    (hI : s.head.total_weight ≤ s.headerHead.total_weight) :
    s'.head.total_weight ≤ s'.headerHead.total_weight := by
  rw [ChainUpdate.sync_block_headers] at hok
  cases hhd : (sortByKey (fun h => h.inner.height) headers).head? with
  | none =>
    rw [hhd] at hok
    dsimp only at hok
    injection hok with hok
    obtain ⟨-, hs'⟩ := Prod.mk.inj hok
    subst hs'
    exact hI
  | some hd =>
    rw [hhd] at hok
    dsimp only at hok
    split at hok
    · exact Except.noConfusion hok
    · next s1 hs1 =>
      have hheads : s1.head = s.head ∧ s1.headerHead = s.headerHead := by
        split at hs1
        · exact syncSaveLoop_heads rt now _ s s1 hs1
        · injection hs1 with hs1
          subst hs1
          exact ⟨rfl, rfl⟩
      cases hlast : (sortByKey (fun h => h.inner.height) headers).getLast? with
      | none =>
        rw [hlast] at hok
        dsimp only at hok
        injection hok with hok
        obtain ⟨-, hs'⟩ := Prod.mk.inj hok
        subst hs'
        rw [hheads.1, hheads.2]
        exact hI
      | some last_header =>
        rw [hlast] at hok
        dsimp only at hok
        injection hok with hok
        obtain ⟨-, hs'⟩ := Prod.mk.inj hok
        subst hs'
        obtain ⟨huh1, huh2, -⟩ := uhh_heads (ChainUpdate.update_sync_head s1 last_header)
          last_header
        rw [huh1]
        have hle : (ChainUpdate.update_sync_head s1 last_header).head.total_weight ≤
            (ChainUpdate.update_sync_head s1 last_header).headerHead.total_weight := by
          show s1.head.total_weight ≤ s1.headerHead.total_weight
          rw [hheads.1, hheads.2]
          exact hI
        exact Nat.le_trans hle huh2

theorem sync_chain_I1 (rt : RuntimeAdapter) (now : Nat) (cs : ChainState)
    (headers : List BlockHeader) (h : I1 cs) :
    I1 (Chain.sync_block_headers rt now cs headers).2 := by
  rw [Chain.sync_block_headers]
  cases hcu : ChainUpdate.sync_block_headers rt now cs.store headers with
  | ok pr =>
    obtain ⟨mt, s'⟩ := pr
    exact cu_sync_I1 rt now cs.store headers mt s' hcu h
  | error e => exact h

theorem sss_I1 (rt : RuntimeAdapter) (cs : ChainState) (shard hash : Nat)
    (payload receipts : List Nat) (h : I1 cs) :
    I1 (Chain.set_shard_state rt cs shard hash payload receipts).2 := by
  rw [Chain.set_shard_state]
  cases hh : cs.store.get_block_header hash with
  | error e => exact h
  | ok header =>
    dsimp only
    cases hs : rt.set_state shard header.inner.prev_state_root payload with
    | error e => exact h
    | ok u => cases u; exact h

theorem rsh_I1 (cs : ChainState) (h : I1 cs) : I1 (Chain.reset_sync_head cs) := h

/-- C3: invariant I1 — `HEAD.total_weight ≤ HEADER_HEAD.total_weight` — holds
in every state reachable from an I1 state by the committing chain operations
(`process_block`, `sync_block_headers`, `set_shard_state`,
`reset_sync_head`); in particular a successful `process_block` advances
HEADER_HEAD (inside `process_header_for_block`) before it advances HEAD, so
the final state still satisfies I1. -/
theorem c3_head_weight_invariant (rt : RuntimeAdapter) (s0 s : ChainState)
    (h0 : I1 s0) (hr : ChainReachable rt s0 s) : I1 s := by
  induction hr with
  | refl => exact h0
  | process_block s' now tvp b prov _ ih => exact pb_I1 rt now tvp s' b prov ih
  | sync_block_headers s' now headers _ ih => exact sync_chain_I1 rt now s' headers ih
  | set_shard_state s' shard hash payload receipts _ ih =>
    exact sss_I1 rt s' shard hash payload receipts ih
  | reset_sync_head s' _ ih => exact rsh_I1 s' ih

/-- Witness for C3: one concrete `process_block` step from the genesis state
preserves I1. -/
theorem c3_head_weight_invariant_witness :
    I1 (Chain.process_block rt0 10 100 cs0 b1 .NONE).2 :=
  c3_head_weight_invariant rt0 cs0 _ (by decide)
    (ChainReachable.process_block cs0 cs0 10 100 b1 .NONE (ChainReachable.refl cs0))
